import Mathlib

/-!
# Solar system with shooting stars: camera, particles and model matrices

A shallow embedding of the frame loop of `src/project/mainfinalfinal.cpp`.

* The camera angles, the draw colours and the model matrices are computed in a
  linearly ordered field `α` (exact arithmetic), at `ℝ` where trigonometry is
  involved.
* The particle code, where a rounded `float` value decides whether a star is
  spawned or removed, takes the rounding `fl` of a float result as a
  parameter; the code is the instance `fl = f32`, rounding of a rational to the
  nearest binary32 value, ties to even. Values are finite: infinities and
  NaN are outside the model.
* The globals (`cameraHorizontalAngle`, `cameraVerticalAngle`, `stars`,
  `starSpawnTimer`) become explicit state, one frame of the `while` loop
  becomes a step function on that state.
* The two `rand()` results and `deltaTime` are inputs of a frame.
* `glm::normalize` of the zero vector is undefined (NaN components); it is
  embedded as a function into `Option`.
-/

namespace SolarSystem

/-! ## Vectors (`glm::vec3`, `glm::vec4`) -/

/-- The type `glm::vec3`. -/
@[ext]
structure Vec3 (α : Type) where
  x : α
  y : α
  z : α
deriving DecidableEq, Repr

namespace Vec3

variable {α : Type}

/-- Componentwise `operator+`. -/
def add [Add α] (a b : Vec3 α) : Vec3 α := ⟨a.x + b.x, a.y + b.y, a.z + b.z⟩

/-- The product `v * k` of a vector with a scalar. -/
def smul [Mul α] (v : Vec3 α) (k : α) : Vec3 α := ⟨v.x * k, v.y * k, v.z * k⟩

/-- The vector with `f` applied to each component. -/
def map (f : α → α) (v : Vec3 α) : Vec3 α := ⟨f v.x, f v.y, f v.z⟩

/-- The function `glm::dot`. -/
def dot [Add α] [Mul α] (a b : Vec3 α) : α := a.x * b.x + a.y * b.y + a.z * b.z

/-- The function `glm::cross`:
`(x.y * y.z - y.y * x.z, x.z * y.x - y.z * x.x, x.x * y.y - y.x * x.y)`. -/
def cross [Sub α] [Mul α] (a b : Vec3 α) : Vec3 α :=
  ⟨a.y * b.z - b.y * a.z, a.z * b.x - b.z * a.x, a.x * b.y - b.x * a.y⟩

end Vec3

/-! ## Orientation controller (lines 262-293) -/

/-- The two camera angles, the globals `cameraHorizontalAngle` (yaw) and
`cameraVerticalAngle` (pitch), in degrees. -/
@[ext]
structure CameraAngles (α : Type) where
  cameraHorizontalAngle : α
  cameraVerticalAngle : α
deriving DecidableEq, Repr

/-- The start values of the two globals: yaw `90`, pitch `0`. -/
def initialAngles {α : Type} [LinearOrderedField α] : CameraAngles α := ⟨90, 0⟩

/-- The pointer delta and the frame time that one frame feeds to the camera. -/
structure PointerInput (α : Type) where
  dx : α
  dy : α
  deltaTime : α
deriving Repr

/-- One frame of the camera angle update: subtract the scaled pointer delta
(`cameraAngularSpeed = 6`), clamp the pitch with `std::max(-85, std::min(85, _))`,
then the four `if` clamps of the yaw to `[minYaw, maxYaw] = [60, 120]` and of
the pitch to `[minPitch, maxPitch] = [-25, 25]`. The calls of
`glfwSetCursorPos(window, lastX, lastY)` put the pointer where it was just
sampled and do not touch the angles. -/
def updateAngles {α : Type} [LinearOrderedField α]
    (c : CameraAngles α) (i : PointerInput α) : CameraAngles α :=
  let cameraAngularSpeed : α := 6
  let yaw0 := c.cameraHorizontalAngle - i.dx * i.deltaTime * cameraAngularSpeed
  let pitch0 := c.cameraVerticalAngle - i.dy * i.deltaTime * cameraAngularSpeed
  let pitch1 := max (-85) (min 85 pitch0)
  let minYaw : α := 60
  let maxYaw : α := 120
  let yaw1 := if yaw0 < minYaw then minYaw else yaw0
  let yaw2 := if yaw1 > maxYaw then maxYaw else yaw1
  let minPitch : α := -25
  let maxPitch : α := 25
  let pitch2 := if pitch1 < minPitch then minPitch else pitch1
  let pitch3 := if pitch2 > maxPitch then maxPitch else pitch2
  ⟨yaw2, pitch3⟩

/-- The camera angles after a run of frames, oldest frame first. -/
def runAngles {α : Type} [LinearOrderedField α]
    (c : CameraAngles α) (frames : List (PointerInput α)) : CameraAngles α :=
  frames.foldl updateAngles c

/-- The clamp range: `60 ≤ yaw ≤ 120` and `-25 ≤ pitch ≤ 25`. -/
def AnglesInRange {α : Type} [LinearOrderedField α] (c : CameraAngles α) : Prop :=
  60 ≤ c.cameraHorizontalAngle ∧ c.cameraHorizontalAngle ≤ 120 ∧
    -25 ≤ c.cameraVerticalAngle ∧ c.cameraVerticalAngle ≤ 25

/-! ## Rounding to binary32 -/

/-- Rounding of a rational to the nearest integer, ties to the even one. -/
def roundEven (q : ℚ) : ℤ :=
  let f := ⌊q⌋
  let r := q - f
  if r < 1 / 2 then f else if 1 / 2 < r then f + 1 else if f % 2 = 0 then f else f + 1

/-- The exponent of the unit in the last place of a binary32 magnitude `x`:
23 below the binade `⌊log₂ x⌋` of `x` (24 significand bits), the binade taken
no lower than `-126` (subnormal range). -/
def ulpExp (x : ℚ) : ℤ := max (Int.log 2 x) (-126) - 23

/-- Rounding of a magnitude `x ≥ 0` to binary32: the nearest multiple of the
unit in the last place, ties to the even significand. -/
def f32pos (x : ℚ) : ℚ := (roundEven (x / 2 ^ ulpExp x) : ℚ) * 2 ^ ulpExp x

/-- Rounding of a rational to binary32 (round to nearest, ties to even), the
value that a `float` operation stores for the exact result `x`. The format is
sign and magnitude: the magnitude is rounded, the sign kept. The result of
an overflow is not modelled. -/
def f32 (x : ℚ) : ℚ := if x < 0 then -f32pos (-x) else f32pos x

/-- The multiples of `2⁻²³`, the spacing of the binary32 values between `1`
and `2`. -/
def OnGrid (x : ℚ) : Prop := ∃ k : ℤ, x = (k : ℚ) / 2 ^ 23

/-! ## Frame times (lines 247-252) -/

/-- The frame times for a run of clock samples `glfwGetTime()`: each sample is
converted to `float`, `deltaTime` is the float difference to `lastTime`, and
the converted sample becomes the next `lastTime`. -/
def deltaTimes {α : Type} [LinearOrderedField α] (fl : α → α) (lastTime : α) :
    List α → List α
  | [] => []
  | t :: ts => fl (fl t - lastTime) :: deltaTimes fl (fl t) ts

/-! ## Shooting stars (lines 70-79, 344-388)

In this section `fl` is the rounding that a `float` operation applies to its
exact result; the code is `fl = f32`. -/

/-- The struct `ShootingStar`. -/
@[ext]
structure ShootingStar (α : Type) where
  position : Vec3 α
  velocity : Vec3 α
  life : α
  trail : List (Vec3 α)
deriving DecidableEq, Repr

/-- The body of the update loop (lines 355-362) for one star: push the current
position on the trail, erase the first trail entry when the size is above 10,
move the star (`s.velocity * deltaTime`, then `+=`, each a float operation on
every component, not fused), reduce its life (`s.life -= deltaTime`). -/
def updateStar {α : Type} [LinearOrderedField α] (fl : α → α) (s : ShootingStar α)
    (deltaTime : α) : ShootingStar α :=
  let trail1 := s.trail ++ [s.position]
  let trail2 := if trail1.length > 10 then trail1.tail else trail1
  { position := (s.position.add ((s.velocity.smul deltaTime).map fl)).map fl
    velocity := s.velocity
    life := fl (s.life - deltaTime)
    trail := trail2 }

/-- A star updated once per frame with the given frame times, oldest first. -/
def updateStarMany {α : Type} [LinearOrderedField α] (fl : α → α) (s : ShootingStar α)
    (deltaTimes : List α) : ShootingStar α :=
  deltaTimes.foldl (updateStar fl) s

/-- The life value that a star of life `life` stores after `n` updates with
the same frame time `d`. -/
def lifeAfter {α : Type} [LinearOrderedField α] (fl : α → α) (life d : α) : Nat → α
  | 0 => life
  | n + 1 => fl (lifeAfter fl life d n - d)

/-- The update loop over all stars followed by the cull of line 364:
`remove_if` with the predicate `s.life <= 0.0f`, keeping the order. -/
def updateAndCull {α : Type} [LinearOrderedField α] (fl : α → α)
    (stars : List (ShootingStar α)) (deltaTime : α) : List (ShootingStar α) :=
  (stars.map (fun s => updateStar fl s deltaTime)).filter (fun s => ¬ (s.life ≤ 0))

/-- The update-and-cull step run for `n` frames with the same frame time. -/
def updateAndCullN {α : Type} [LinearOrderedField α] (fl : α → α)
    (stars : List (ShootingStar α)) (deltaTime : α) : Nat → List (ShootingStar α)
  | 0 => stars
  | n + 1 => updateAndCull fl (updateAndCullN fl stars deltaTime n) deltaTime

/-- The star built in the spawn branch (lines 348-351) from the two `rand()`
results: position `(-5 + rand() % 10, 3 + rand() % 2, -5)`, velocity
`(2.5, -3, 0)`, life `2`, empty trail. All these values are small multiples
of `1/2` and exact in binary32. -/
def spawnStar {α : Type} [LinearOrderedField α] (rand1 rand2 : Nat) : ShootingStar α :=
  { position := ⟨-5 + ((rand1 % 10 : Nat) : α), 3 + ((rand2 % 2 : Nat) : α), -5⟩
    velocity := ⟨5 / 2, -3, 0⟩
    life := 2
    trail := [] }

/-- The particle state: the globals `stars` and `starSpawnTimer`. -/
structure ParticleState (α : Type) where
  stars : List (ShootingStar α)
  starSpawnTimer : α
deriving Repr

/-- The start values of the globals: no star, timer `0`. -/
def initialParticles {α : Type} [LinearOrderedField α] : ParticleState α := ⟨[], 0⟩

/-- What one frame feeds to the particle code: the frame time and the values
that the two `rand()` calls would return. -/
structure FrameInput (α : Type) where
  deltaTime : α
  rand1 : Nat
  rand2 : Nat
deriving Repr

/-- The spawn policy (lines 345-353): add the frame time to the timer
(`starSpawnTimer += deltaTime`, a float addition); when the stored timer is
above `1`, reset it to `0` and push one new star. -/
def spawnStep {α : Type} [LinearOrderedField α] (fl : α → α) (p : ParticleState α)
    (f : FrameInput α) : ParticleState α :=
  let timer := fl (p.starSpawnTimer + f.deltaTime)
  if timer > 1 then
    { stars := p.stars ++ [spawnStar f.rand1 f.rand2], starSpawnTimer := 0 }
  else
    { stars := p.stars, starSpawnTimer := timer }

/-- The number of stars that the spawn policy adds in one frame. -/
def spawnedBy {α : Type} [LinearOrderedField α] (fl : α → α) (p : ParticleState α)
    (f : FrameInput α) : Nat :=
  (spawnStep fl p f).stars.length - p.stars.length

/-- The particle part of one frame (lines 344-364): spawn, update, cull. -/
def particleFrame {α : Type} [LinearOrderedField α] (fl : α → α) (p : ParticleState α)
    (f : FrameInput α) : ParticleState α :=
  let q := spawnStep fl p f
  { stars := updateAndCull fl q.stars f.deltaTime, starSpawnTimer := q.starSpawnTimer }

/-- The particle state after a run of frames, oldest frame first. -/
def runParticles {α : Type} [LinearOrderedField α] (fl : α → α) (p : ParticleState α)
    (frames : List (FrameInput α)) : ParticleState α :=
  frames.foldl (particleFrame fl) p

/-- The total number of stars spawned over a run of frames, together with
the final particle state. -/
def runSpawnCount {α : Type} [LinearOrderedField α] (fl : α → α) :
    ParticleState α → List (FrameInput α) → Nat × ParticleState α
  | p, [] => (0, p)
  | p, f :: fs =>
    let r := runSpawnCount fl (particleFrame fl p f) fs
    (spawnedBy fl p f + r.1, r.2)

/-- The positions a star has right before each of its updates, oldest first:
the values that the successive `push_back(s.position)` calls record. -/
def visited {α : Type} [LinearOrderedField α] (fl : α → α) :
    ShootingStar α → List α → List (Vec3 α)
  | _, [] => []
  | s, d :: ds => s.position :: visited fl (updateStar fl s d) ds

/-! ## Matrices (`glm::vec4`, `glm::mat4`, `glm::translate`, `glm::scale`, `glm::rotate`)

The GLM functions are library code; they are written out here the way GLM
computes them, on column vectors, with `m[i]` the `i`-th column. -/

/-- The type `glm::vec4`. -/
@[ext]
structure Vec4 (α : Type) where
  x : α
  y : α
  z : α
  w : α
deriving DecidableEq, Repr

namespace Vec4

variable {α : Type}

/-- Componentwise `operator+`. -/
def add [Add α] (a b : Vec4 α) : Vec4 α := ⟨a.x + b.x, a.y + b.y, a.z + b.z, a.w + b.w⟩

/-- The product `v * k` of a vector with a scalar. -/
def smul [Mul α] (v : Vec4 α) (k : α) : Vec4 α := ⟨v.x * k, v.y * k, v.z * k, v.w * k⟩

end Vec4

/-- The type `glm::mat4`: four columns, `m[0]` to `m[3]` (column-major). -/
@[ext]
structure Mat4 (α : Type) where
  c0 : Vec4 α
  c1 : Vec4 α
  c2 : Vec4 α
  c3 : Vec4 α
deriving DecidableEq, Repr

namespace Mat4

variable {α : Type}

/-- The matrix `glm::mat4(1.0f)`. -/
def identity [Zero α] [One α] : Mat4 α :=
  ⟨⟨1, 0, 0, 0⟩, ⟨0, 1, 0, 0⟩, ⟨0, 0, 1, 0⟩, ⟨0, 0, 0, 1⟩⟩

/-- The function `glm::translate(m, v)`: the first three columns of `m` are
kept and `Result[3] = m[0] * v[0] + m[1] * v[1] + m[2] * v[2] + m[3]`. -/
def translate [Add α] [Mul α] (m : Mat4 α) (v : Vec3 α) : Mat4 α :=
  { c0 := m.c0
    c1 := m.c1
    c2 := m.c2
    c3 := (((m.c0.smul v.x).add (m.c1.smul v.y)).add (m.c2.smul v.z)).add m.c3 }

/-- The function `glm::scale(m, v)`: `Result[i] = m[i] * v[i]` for the first
three columns and `Result[3] = m[3]`. -/
def scale [Mul α] (m : Mat4 α) (v : Vec3 α) : Mat4 α :=
  { c0 := m.c0.smul v.x
    c1 := m.c1.smul v.y
    c2 := m.c2.smul v.z
    c3 := m.c3 }

/-- The body of `glm::rotate(m, angle, v)` after `c = cos(angle)`,
`s = sin(angle)` and `axis = normalize(v)` have been computed. -/
def rotateWith [Ring α] (m : Mat4 α) (c s : α) (axis : Vec3 α) : Mat4 α :=
  let temp : Vec3 α := ⟨(1 - c) * axis.x, (1 - c) * axis.y, (1 - c) * axis.z⟩
  let r00 := c + temp.x * axis.x
  let r01 := temp.x * axis.y + s * axis.z
  let r02 := temp.x * axis.z - s * axis.y
  let r10 := temp.y * axis.x - s * axis.z
  let r11 := c + temp.y * axis.y
  let r12 := temp.y * axis.z + s * axis.x
  let r20 := temp.z * axis.x + s * axis.y
  let r21 := temp.z * axis.y - s * axis.x
  let r22 := c + temp.z * axis.z
  { c0 := ((m.c0.smul r00).add (m.c1.smul r01)).add (m.c2.smul r02)
    c1 := ((m.c0.smul r10).add (m.c1.smul r11)).add (m.c2.smul r12)
    c2 := ((m.c0.smul r20).add (m.c1.smul r21)).add (m.c2.smul r22)
    c3 := m.c3 }

end Mat4

/-- The vector `glm::vec3(k)` with three equal components. -/
def vec3Splat {α : Type} (k : α) : Vec3 α := ⟨k, k, k⟩

/-- The sun matrix (line 315): `glm::scale(glm::mat4(1.0f), glm::vec3(1.5f))`.
It does not depend on the elapsed time. -/
def sunModel {α : Type} [LinearOrderedField α] : Mat4 α :=
  Mat4.scale Mat4.identity (vec3Splat (3 / 2))

/-! ## Trigonometry over `ℝ` (`glm::radians`, `glm::normalize`, camera basis) -/

/-- The function `glm::radians`: degrees times `π / 180`. -/
noncomputable def radians (degrees : ℝ) : ℝ := degrees * (Real.pi / 180)

/-- The function `glm::length`. -/
noncomputable def length (v : Vec3 ℝ) : ℝ := Real.sqrt (v.dot v)

/-- The function `glm::normalize`, `v * inversesqrt(dot(v, v))`. For the zero
vector the product is `0 * inf`, not a number: the result is `none`. -/
noncomputable def normalize (v : Vec3 ℝ) : Option (Vec3 ℝ) :=
  if v.dot v = 0 then none else some (v.smul (1 / Real.sqrt (v.dot v)))

/-- The function `glm::rotate(m, angle, v)`. -/
noncomputable def rotate (m : Mat4 ℝ) (angle : ℝ) (v : Vec3 ℝ) : Option (Mat4 ℝ) :=
  (normalize v).map (fun axis => Mat4.rotateWith m (Real.cos angle) (Real.sin angle) axis)

/-- The earth matrix (lines 323-325) at elapsed time `t`. -/
noncomputable def earthModel (t : ℝ) : Option (Mat4 ℝ) :=
  (rotate Mat4.identity (t * radians 30) ⟨0, 1, 0⟩).bind fun m1 =>
    rotate (Mat4.translate m1 ⟨23 / 10, 0, 0⟩) (t * radians 100) ⟨0, 1, 0⟩

/-- The moon matrix (lines 333-337) at elapsed time `t`. -/
noncomputable def moonModel (t : ℝ) : Option (Mat4 ℝ) :=
  (rotate Mat4.identity (t * radians 30) ⟨0, 1, 0⟩).bind fun m1 =>
    (rotate (Mat4.translate m1 ⟨23 / 10, 0, 0⟩) (t * radians 100) ⟨0, 1, 0⟩).map fun m2 =>
      Mat4.scale (Mat4.translate m2 ⟨1, 0, 0⟩) (vec3Splat (6 / 10))

/-- The global `camUp`. -/
def camUp {α : Type} [Zero α] [One α] : Vec3 α := ⟨0, 1, 0⟩

/-- The look direction (lines 295-299) from the two camera angles in degrees. -/
noncomputable def direction (yaw pitch : ℝ) : Vec3 ℝ :=
  ⟨Real.cos (radians pitch) * Real.cos (radians yaw),
    Real.sin (radians pitch),
    -Real.cos (radians pitch) * Real.sin (radians yaw)⟩

/-- The camera basis (lines 300-301) for a look direction `d`:
`right = normalize(cross(d, camUp))`, `up = normalize(cross(right, d))`.
There is no stored previous basis and no test of the cross product: the
result is `none` as soon as one of the two normalisations is undefined. -/
noncomputable def cameraBasis (d : Vec3 ℝ) : Option (Vec3 ℝ × Vec3 ℝ) :=
  (normalize (d.cross camUp)).bind fun right =>
    (normalize (right.cross d)).map fun up => (right, up)

/-! ## Invariant of the particle state -/

/-- A concrete star for the examples: the one spawned when both `rand()` calls
return `0`, at position `(-5, 3, -5)`. -/
def exampleStar : ShootingStar ℚ := spawnStar 0 0

/-- Ten frame times of an eighth of a second each. -/
def eighthFrames : List ℚ := List.replicate 10 (1 / 8)

/-- The binary32 value nearest to `0.4`, the `float` literal `0.4f`:
`13421773 · 2⁻²⁵ = 0.4000000059604644775390625`. -/
def frameTime04 : ℚ := 13421773 / 33554432

/-- Two frames whose frame times sum to `7/8`. -/
def shortFrames : List (FrameInput ℚ) := [⟨3 / 8, 3, 1⟩, ⟨1 / 2, 7, 0⟩]

/-- A frame of `1/4` that takes the sum of `shortFrames` above `1`. -/
def crossingFrame : FrameInput ℚ := ⟨1 / 4, 4, 1⟩

/-- The start value of `lastTime` in the clock example: `1/2 - 2⁻²⁴` seconds. -/
def clockStart : ℚ := 1 / 2 - 1 / 2 ^ 24

/-- The clock samples of two frames, at `1` and `3/2` seconds. -/
def clockSamples : List ℚ := [1, 3 / 2]

/-- The two frames that `clockStart` and `clockSamples` give: frame times
`1/2 + 2⁻²⁴` and `1/2`, with sum `1 + 2⁻²⁴`. -/
def clockFrames : List (FrameInput ℚ) := [⟨1 / 2 + 1 / 2 ^ 24, 5, 1⟩, ⟨1 / 2, 8, 0⟩]

theorem updateAngles_inRange {α : Type} [LinearOrderedField α]
    (c : CameraAngles α) (i : PointerInput α) : AnglesInRange (updateAngles c i) := by
  simp only [updateAngles, AnglesInRange]
  refine ⟨?_, ?_, ?_, ?_⟩ <;> split_ifs <;> norm_num at * <;> linarith

theorem runAngles_snoc {α : Type} [LinearOrderedField α]
    (c : CameraAngles α) (frames : List (PointerInput α)) (i : PointerInput α) :
    runAngles c (frames ++ [i]) = updateAngles (runAngles c frames) i := by
  simp [runAngles, List.foldl_append]

/-- C1: whatever the camera angles and whatever the pointer delta and frame
time, one frame of the angle update leaves the yaw in `[60, 120]` and the
pitch in `[-25, 25]`; so the same holds after the last frame of every
non-empty run of frames from any start, and after every run (the empty one
included) from the initial angles. -/
theorem C1_angles_clamped_every_frame {α : Type} [LinearOrderedField α] :
    (∀ (c : CameraAngles α) (i : PointerInput α),
        60 ≤ (updateAngles c i).cameraHorizontalAngle ∧
        (updateAngles c i).cameraHorizontalAngle ≤ 120 ∧
        -25 ≤ (updateAngles c i).cameraVerticalAngle ∧
        (updateAngles c i).cameraVerticalAngle ≤ 25) ∧
    (∀ (c : CameraAngles α) (frames : List (PointerInput α)) (i : PointerInput α),
        AnglesInRange (runAngles c (frames ++ [i]))) ∧
    (∀ frames : List (PointerInput α), AnglesInRange (runAngles initialAngles frames)) := by
  refine ⟨fun c i => updateAngles_inRange c i, fun c frames i => ?_, fun frames => ?_⟩
  · rw [runAngles_snoc]
    exact updateAngles_inRange _ _
  · rcases List.eq_nil_or_concat frames with h | ⟨fs, i, h⟩
    · subst h
      simp only [runAngles, List.foldl_nil, initialAngles, AnglesInRange]
      norm_num
    · subst h
      rw [List.concat_eq_append, runAngles_snoc]
      exact updateAngles_inRange _ _

/-! ### Rounding to the nearest integer -/

theorem roundEven_intCast (n : ℤ) : roundEven (n : ℚ) = n := by
  simp [roundEven]

theorem floor_le_roundEven (q : ℚ) : ⌊q⌋ ≤ roundEven q := by
  unfold roundEven
  simp only
  split_ifs <;> omega

theorem roundEven_le_floor_add_one (q : ℚ) : roundEven q ≤ ⌊q⌋ + 1 := by
  unfold roundEven
  simp only
  split_ifs <;> omega

theorem roundEven_mono {q r : ℚ} (h : q ≤ r) : roundEven q ≤ roundEven r := by
  have hf : ⌊q⌋ ≤ ⌊r⌋ := Int.floor_mono h
  rcases hf.lt_or_eq with hlt | heq
  · calc roundEven q ≤ ⌊q⌋ + 1 := roundEven_le_floor_add_one q
      _ ≤ ⌊r⌋ := hlt
      _ ≤ roundEven r := floor_le_roundEven r
  · unfold roundEven
    simp only
    rw [← heq]
    split_ifs <;> first | omega | (exfalso; linarith)

theorem roundEven_eq_of_bounds (q : ℚ) (n : ℤ) (h1 : (n : ℚ) - 1 / 2 ≤ q)
    (h2 : q ≤ (n : ℚ) + 1 / 2) (h3 : q = (n : ℚ) - 1 / 2 ∨ q = (n : ℚ) + 1 / 2 → n % 2 = 0) :
    roundEven q = n := by
  by_cases hq : (n : ℚ) ≤ q
  · have hfl : ⌊q⌋ = n := by
      rw [Int.floor_eq_iff]
      constructor
      · exact hq
      · linarith
    unfold roundEven
    simp only
    rw [hfl]
    split_ifs with a b c
    · rfl
    · exfalso; linarith
    · rfl
    · exfalso
      have : q = (n : ℚ) + 1 / 2 := by linarith
      exact c (h3 (Or.inr this))
  · push_neg at hq
    have hfl : ⌊q⌋ = n - 1 := by
      rw [Int.floor_eq_iff]
      push_cast
      constructor <;> linarith
    unfold roundEven
    simp only
    rw [hfl]
    push_cast
    split_ifs with a b c
    · exfalso; linarith
    · omega
    · exfalso
      have : q = (n : ℚ) - 1 / 2 := by linarith
      have := h3 (Or.inl this)
      omega
    · omega

/-! ### Rounding to binary32 -/

theorem two_zpow_pos (k : ℤ) : (0 : ℚ) < 2 ^ k := by positivity

theorem two_zpow_add_nat (k : ℤ) (n : ℕ) : (2 : ℚ) ^ (k + n) = 2 ^ n * 2 ^ k := by
  rw [zpow_add₀ (by norm_num : (2 : ℚ) ≠ 0), zpow_natCast, mul_comm]

theorem two_zpow_mono {a b : ℤ} (h : a ≤ b) : (2 : ℚ) ^ a ≤ 2 ^ b :=
  zpow_le_zpow_right₀ (by norm_num) h

theorem two_zpow_log_le {x : ℚ} (hx : 0 < x) : (2 : ℚ) ^ Int.log 2 x ≤ x := by
  have := Int.zpow_log_le_self (b := 2) (by norm_num) hx
  simpa using this

theorem lt_two_zpow_log_succ (x : ℚ) : x < (2 : ℚ) ^ (Int.log 2 x + 1) := by
  have := Int.lt_zpow_succ_log_self (b := 2) (by norm_num) x
  simpa using this

theorem ulpExp_ge (x : ℚ) : -149 ≤ ulpExp x := by
  unfold ulpExp
  have := le_max_right (Int.log 2 x) (-126)
  omega

theorem ulpExp_mono {x y : ℚ} (hx : 0 < x) (h : x ≤ y) : ulpExp x ≤ ulpExp y := by
  unfold ulpExp
  have := Int.log_mono_right (b := 2) hx h
  have := max_le_max this (le_refl (-126 : ℤ))
  omega

theorem lt_ulp_top (x : ℚ) : x < 2 ^ 24 * 2 ^ ulpExp x := by
  rw [← two_zpow_add_nat]
  refine lt_of_lt_of_le (lt_two_zpow_log_succ x) (two_zpow_mono ?_)
  unfold ulpExp
  have := le_max_left (Int.log 2 x) (-126)
  push_cast
  omega

theorem ulp_bottom_le {x : ℚ} (hx : 0 < x) (h : -126 ≤ Int.log 2 x) :
    2 ^ 23 * 2 ^ ulpExp x ≤ x := by
  rw [← two_zpow_add_nat]
  refine le_trans (two_zpow_mono ?_) (two_zpow_log_le hx)
  unfold ulpExp
  rw [max_eq_left h]
  push_cast
  omega

theorem f32pos_zero : f32pos 0 = 0 := by
  simp [f32pos, roundEven]

theorem f32pos_nonneg {x : ℚ} (hx : 0 ≤ x) : 0 ≤ f32pos x := by
  unfold f32pos
  have h0 : (0 : ℚ) ≤ x / 2 ^ ulpExp x := div_nonneg hx (two_zpow_pos _).le
  have h1 : (0 : ℤ) ≤ roundEven (x / 2 ^ ulpExp x) := by
    have := roundEven_mono h0
    rwa [show ((0 : ℚ)) = ((0 : ℤ) : ℚ) by norm_num, roundEven_intCast] at this
  exact mul_nonneg (by exact_mod_cast h1) (two_zpow_pos _).le

theorem f32pos_le_top (x : ℚ) : f32pos x ≤ 2 ^ 24 * 2 ^ ulpExp x := by
  unfold f32pos
  have hu := two_zpow_pos (ulpExp x)
  have h0 : x / 2 ^ ulpExp x ≤ ((2 ^ 24 : ℤ) : ℚ) := by
    rw [div_le_iff₀ hu]
    push_cast
    exact (lt_ulp_top x).le
  have h1 := roundEven_mono h0
  rw [roundEven_intCast] at h1
  have h2 : (roundEven (x / 2 ^ ulpExp x) : ℚ) ≤ 2 ^ 24 := by exact_mod_cast h1
  exact mul_le_mul_of_nonneg_right h2 hu.le

theorem bottom_le_f32pos {x : ℚ} (hx : 0 < x) (h : -126 ≤ Int.log 2 x) :
    2 ^ 23 * 2 ^ ulpExp x ≤ f32pos x := by
  unfold f32pos
  have hu := two_zpow_pos (ulpExp x)
  have h0 : ((2 ^ 23 : ℤ) : ℚ) ≤ x / 2 ^ ulpExp x := by
    rw [le_div_iff₀ hu]
    push_cast
    exact ulp_bottom_le hx h
  have h1 := roundEven_mono h0
  rw [roundEven_intCast] at h1
  have h2 : (2 ^ 23 : ℚ) ≤ (roundEven (x / 2 ^ ulpExp x) : ℚ) := by exact_mod_cast h1
  exact mul_le_mul_of_nonneg_right h2 hu.le

theorem f32pos_mono {x y : ℚ} (hx : 0 ≤ x) (h : x ≤ y) : f32pos x ≤ f32pos y := by
  rcases hx.eq_or_lt with rfl | hx0
  · rw [f32pos_zero]
    exact f32pos_nonneg h
  have hy0 : 0 < y := lt_of_lt_of_le hx0 h
  have hu := ulpExp_mono hx0 h
  rcases hu.eq_or_lt with heq | hlt
  · unfold f32pos
    rw [heq]
    have hpos := two_zpow_pos (ulpExp y)
    have h0 : x / 2 ^ ulpExp y ≤ y / 2 ^ ulpExp y := by
      exact div_le_div_of_nonneg_right h hpos.le
    have h1 := roundEven_mono h0
    exact mul_le_mul_of_nonneg_right (by exact_mod_cast h1) hpos.le
  · have hlog : -126 ≤ Int.log 2 y := by
      by_contra hc
      push_neg at hc
      have h1 : ulpExp y = -149 := by
        unfold ulpExp
        rw [max_eq_right hc.le]
        rfl
      have := ulpExp_ge x
      omega
    calc f32pos x ≤ 2 ^ 24 * 2 ^ ulpExp x := f32pos_le_top x
      _ = 2 ^ 23 * 2 ^ (ulpExp x + 1) := by
        rw [show ulpExp x + 1 = ulpExp x + (1 : ℕ) by norm_num, two_zpow_add_nat]
        ring
      _ ≤ 2 ^ 23 * 2 ^ ulpExp y :=
        mul_le_mul_of_nonneg_left (two_zpow_mono (by omega)) (by positivity)
      _ ≤ f32pos y := bottom_le_f32pos hy0 hlog

theorem f32_of_nonneg {x : ℚ} (hx : 0 ≤ x) : f32 x = f32pos x := by
  rw [f32, if_neg (not_lt.mpr hx)]

theorem f32_of_neg {x : ℚ} (hx : x < 0) : f32 x = -f32pos (-x) := by
  rw [f32, if_pos hx]

theorem f32_zero : f32 0 = 0 := by
  rw [f32_of_nonneg le_rfl, f32pos_zero]

theorem f32_mono {x y : ℚ} (h : x ≤ y) : f32 x ≤ f32 y := by
  by_cases hx : x < 0
  · by_cases hy : y < 0
    · rw [f32_of_neg hx, f32_of_neg hy, neg_le_neg_iff]
      exact f32pos_mono (by linarith) (by linarith)
    · rw [f32_of_neg hx, f32_of_nonneg (not_lt.mp hy)]
      have h1 := f32pos_nonneg (show (0 : ℚ) ≤ -x by linarith)
      have h2 := f32pos_nonneg (not_lt.mp hy)
      linarith
  · have hx0 := not_lt.mp hx
    rw [f32_of_nonneg hx0, f32_of_nonneg (hx0.trans h)]
    exact f32pos_mono hx0 h

theorem f32pos_of_dyadic (m : ℕ) (j : ℤ) (hm : m < 2 ^ 24) (hj : -149 ≤ j) :
    f32pos ((m : ℚ) * 2 ^ j) = (m : ℚ) * 2 ^ j := by
  rcases Nat.eq_zero_or_pos m with rfl | hm0
  · simp [f32pos_zero]
  have hx : (0 : ℚ) < (m : ℚ) * 2 ^ j := mul_pos (by exact_mod_cast hm0) (two_zpow_pos j)
  have hlt : (m : ℚ) * 2 ^ j < 2 ^ (j + 24) := by
    rw [show j + 24 = j + (24 : ℕ) by norm_num, two_zpow_add_nat]
    exact mul_lt_mul_of_pos_right (by exact_mod_cast hm) (two_zpow_pos j)
  have hlog : Int.log 2 ((m : ℚ) * 2 ^ j) < j + 24 := by
    rw [← Int.lt_zpow_iff_log_lt (b := 2) (by norm_num) hx]
    simpa using hlt
  have hu : ulpExp ((m : ℚ) * 2 ^ j) ≤ j := by
    unfold ulpExp
    have := max_le (show Int.log 2 ((m : ℚ) * 2 ^ j) ≤ j + 23 by omega)
      (show (-126 : ℤ) ≤ j + 23 by omega)
    omega
  obtain ⟨d, hd⟩ : ∃ d : ℕ, j = ulpExp ((m : ℚ) * 2 ^ j) + d :=
    ⟨(j - ulpExp ((m : ℚ) * 2 ^ j)).toNat, by omega⟩
  have hq : (m : ℚ) * 2 ^ j / 2 ^ ulpExp ((m : ℚ) * 2 ^ j) = ((m * 2 ^ d : ℤ) : ℚ) := by
    rw [div_eq_iff (two_zpow_pos _).ne']
    conv_lhs => rw [hd, two_zpow_add_nat]
    push_cast
    ring
  unfold f32pos
  rw [hq, roundEven_intCast, ← hq, div_mul_cancel₀ _ (two_zpow_pos _).ne']

theorem f32pos_idem {x : ℚ} (hx : 0 ≤ x) : f32pos (f32pos x) = f32pos x := by
  have hn0 : (0 : ℤ) ≤ roundEven (x / 2 ^ ulpExp x) := by
    have := roundEven_mono (div_nonneg hx (two_zpow_pos (ulpExp x)).le)
    rwa [show ((0 : ℚ)) = ((0 : ℤ) : ℚ) by norm_num, roundEven_intCast] at this
  have hn1 : roundEven (x / 2 ^ ulpExp x) ≤ 2 ^ 24 := by
    have h0 : x / 2 ^ ulpExp x ≤ ((2 ^ 24 : ℤ) : ℚ) := by
      rw [div_le_iff₀ (two_zpow_pos _)]
      push_cast
      exact (lt_ulp_top x).le
    have := roundEven_mono h0
    rwa [roundEven_intCast] at this
  obtain ⟨n, hn⟩ : ∃ n : ℕ, roundEven (x / 2 ^ ulpExp x) = n :=
    ⟨(roundEven (x / 2 ^ ulpExp x)).toNat, by omega⟩
  have hval : f32pos x = (n : ℚ) * 2 ^ ulpExp x := by
    unfold f32pos
    rw [hn]
    push_cast
    rfl
  rw [hval]
  have hn2 : n ≤ 2 ^ 24 := by
    rw [hn] at hn1
    exact_mod_cast hn1
  rcases hn2.lt_or_eq with hlt | heq
  · exact f32pos_of_dyadic n _ hlt (ulpExp_ge x)
  · have h2 : (n : ℚ) * 2 ^ ulpExp x = ((2 ^ 23 : ℕ) : ℚ) * 2 ^ (ulpExp x + 1) := by
      rw [heq, show ulpExp x + 1 = ulpExp x + (1 : ℕ) by norm_num, two_zpow_add_nat]
      push_cast
      ring
    rw [h2]
    exact f32pos_of_dyadic _ _ (by norm_num) (by have := ulpExp_ge x; omega)

theorem f32_idem (x : ℚ) : f32 (f32 x) = f32 x := by
  by_cases hx : x < 0
  · rw [f32_of_neg hx]
    have hv := f32pos_nonneg (show (0 : ℚ) ≤ -x by linarith)
    rcases hv.eq_or_lt with h0 | hpos
    · rw [← h0]
      simp [f32_zero]
    · rw [f32_of_neg (by linarith), neg_neg, f32pos_idem (by linarith)]
  · have hx0 := not_lt.mp hx
    rw [f32_of_nonneg hx0, f32_of_nonneg (f32pos_nonneg hx0), f32pos_idem hx0]

theorem f32_of_dyadic (m : ℤ) (j : ℤ) (hm : |m| < 2 ^ 24) (hj : -149 ≤ j) :
    f32 ((m : ℚ) * 2 ^ j) = (m : ℚ) * 2 ^ j := by
  rcases abs_lt.mp hm with ⟨h1, h2⟩
  by_cases hneg : m < 0
  · obtain ⟨k, hk⟩ : ∃ k : ℕ, m = -(k : ℤ) := ⟨(-m).toNat, by omega⟩
    have hx : (m : ℚ) * 2 ^ j < 0 :=
      mul_neg_of_neg_of_pos (by exact_mod_cast hneg) (two_zpow_pos j)
    rw [f32_of_neg hx, hk]
    push_cast
    rw [show -(-(k : ℚ) * 2 ^ j) = (k : ℚ) * 2 ^ j by ring,
      f32pos_of_dyadic k j (by omega) hj]
    ring
  · obtain ⟨k, hk⟩ : ∃ k : ℕ, m = (k : ℤ) := ⟨m.toNat, by omega⟩
    have hx : (0 : ℚ) ≤ (m : ℚ) * 2 ^ j :=
      mul_nonneg (by exact_mod_cast not_lt.mp hneg) (two_zpow_pos j).le
    rw [f32_of_nonneg hx, hk]
    push_cast
    exact f32pos_of_dyadic k j (by omega) hj

theorem f32pos_eval (x : ℚ) (e n : ℤ) (he : -126 ≤ e) (hlo : (2 : ℚ) ^ e ≤ x)
    (hhi : x < (2 : ℚ) ^ (e + 1))
    (h1 : (n : ℚ) - 1 / 2 ≤ x / 2 ^ (e - 23)) (h2 : x / 2 ^ (e - 23) ≤ (n : ℚ) + 1 / 2)
    (h3 : x / 2 ^ (e - 23) = (n : ℚ) - 1 / 2 ∨ x / 2 ^ (e - 23) = (n : ℚ) + 1 / 2 → n % 2 = 0) :
    f32pos x = (n : ℚ) * 2 ^ (e - 23) := by
  have hx : 0 < x := lt_of_lt_of_le (two_zpow_pos e) hlo
  have hlog : Int.log 2 x = e := by
    apply le_antisymm
    · have : Int.log 2 x < e + 1 := by
        rw [← Int.lt_zpow_iff_log_lt (b := 2) (by norm_num) hx]
        simpa using hhi
      omega
    · rw [← Int.zpow_le_iff_le_log (b := 2) (by norm_num) hx]
      simpa using hlo
  have hu : ulpExp x = e - 23 := by
    unfold ulpExp
    rw [hlog, max_eq_left he]
  unfold f32pos
  rw [hu, roundEven_eq_of_bounds _ n h1 h2 h3]

/-! ### Multiples of `2⁻²³` -/

theorem onGrid_zero : OnGrid 0 := ⟨0, by norm_num⟩

theorem onGrid_one : OnGrid 1 := ⟨2 ^ 23, by norm_num⟩

theorem onGrid_two : OnGrid 2 := ⟨2 ^ 24, by norm_num⟩

theorem OnGrid.add {x y : ℚ} (hx : OnGrid x) (hy : OnGrid y) : OnGrid (x + y) := by
  obtain ⟨a, rfl⟩ := hx
  obtain ⟨b, rfl⟩ := hy
  exact ⟨a + b, by push_cast; ring⟩

theorem OnGrid.sub {x y : ℚ} (hx : OnGrid x) (hy : OnGrid y) : OnGrid (x - y) := by
  obtain ⟨a, rfl⟩ := hx
  obtain ⟨b, rfl⟩ := hy
  exact ⟨a - b, by push_cast; ring⟩

theorem f32_of_onGrid {x : ℚ} (hx : OnGrid x) (h1 : -2 ≤ x) (h2 : x ≤ 2) : f32 x = x := by
  obtain ⟨k, rfl⟩ := hx
  have hk1 : -(2 ^ 24 : ℤ) ≤ k := by
    have : (-(2 ^ 24 : ℤ) : ℚ) ≤ (k : ℚ) := by
      rw [le_div_iff₀ (by positivity)] at h1
      push_cast
      linarith
    exact_mod_cast this
  have hk2 : k ≤ (2 ^ 24 : ℤ) := by
    have : (k : ℚ) ≤ ((2 ^ 24 : ℤ) : ℚ) := by
      rw [div_le_iff₀ (by positivity)] at h2
      push_cast
      linarith
    exact_mod_cast this
  by_cases hk : |k| < 2 ^ 24
  · have := f32_of_dyadic k (-23) hk (by norm_num)
    rw [show (k : ℚ) / 2 ^ 23 = (k : ℚ) * 2 ^ (-23 : ℤ) by
      rw [zpow_neg, div_eq_mul_inv]; norm_num]
    exact this
  · have hk3 : k = 2 ^ 24 ∨ k = -(2 ^ 24) := by
      rw [abs_lt] at hk
      by_contra hc
      push_neg at hc
      apply hk
      constructor
      · rcases hk1.lt_or_eq with h | h
        · exact h
        · exact absurd h.symm hc.2
      · rcases hk2.lt_or_eq with h | h
        · exact h
        · exact absurd h hc.1
    rcases hk3 with rfl | rfl
    · have := f32_of_dyadic 1 1 (by norm_num) (by norm_num)
      norm_num at this ⊢
      exact this
    · have := f32_of_dyadic (-1) 1 (by norm_num) (by norm_num)
      norm_num at this ⊢
      exact this

theorem f32_one : f32 1 = 1 := f32_of_onGrid onGrid_one (by norm_num) (by norm_num)

theorem f32_two : f32 2 = 2 := f32_of_onGrid onGrid_two (by norm_num) (by norm_num)

theorem f32_neg_two : f32 (-2) = -2 :=
  f32_of_onGrid ⟨-(2 ^ 24), by norm_num⟩ (by norm_num) (by norm_num)

theorem onGrid_succ_le {x : ℚ} (hx : OnGrid x) (h : 1 < x) : 1 + 1 / 2 ^ 23 ≤ x := by
  obtain ⟨k, rfl⟩ := hx
  have hk : (2 ^ 23 : ℤ) < k := by
    have : ((2 ^ 23 : ℤ) : ℚ) < (k : ℚ) := by
      rw [lt_div_iff₀ (by positivity)] at h
      push_cast
      linarith
    exact_mod_cast this
  have hk2 : ((2 ^ 23 + 1 : ℤ) : ℚ) ≤ (k : ℚ) := by exact_mod_cast hk
  rw [le_div_iff₀ (by positivity)]
  push_cast at hk2
  linarith

theorem f32_gt_one_iff_of_onGrid {x : ℚ} (hx : OnGrid x) : 1 < f32 x ↔ 1 < x := by
  constructor
  · intro h
    by_contra hc
    have := f32_mono (not_lt.mp hc)
    rw [f32_one] at this
    linarith
  · intro h
    have h1 := f32_mono (onGrid_succ_le hx h)
    have h2 : f32 (1 + 1 / 2 ^ 23) = 1 + 1 / 2 ^ 23 :=
      f32_of_onGrid (onGrid_one.add ⟨1, by norm_num⟩) (by norm_num) (by norm_num)
    rw [h2] at h1
    have : (0 : ℚ) < 1 / 2 ^ 23 := by positivity
    linarith

theorem f32_gt_one_imp {x : ℚ} (h : 1 < f32 x) : 1 < x := by
  by_contra hc
  have := f32_mono (not_lt.mp hc)
  rw [f32_one] at this
  linarith

theorem f32_eval (x y : ℚ) (e n : ℤ) (he : -126 ≤ e) (hlo : (2 : ℚ) ^ e ≤ x)
    (hhi : x < (2 : ℚ) ^ (e + 1))
    (h1 : (n : ℚ) - 1 / 2 ≤ x / 2 ^ (e - 23)) (h2 : x / 2 ^ (e - 23) ≤ (n : ℚ) + 1 / 2)
    (h3 : x / 2 ^ (e - 23) = (n : ℚ) - 1 / 2 ∨ x / 2 ^ (e - 23) = (n : ℚ) + 1 / 2 → n % 2 = 0)
    (hy : y = (n : ℚ) * 2 ^ (e - 23)) : f32 x = y := by
  have hx : 0 ≤ x := le_trans (two_zpow_pos e).le hlo
  rw [f32_of_nonneg hx, f32pos_eval x e n he hlo hhi h1 h2 h3, hy]

theorem f32_eval_neg (x y : ℚ) (e n : ℤ) (he : -126 ≤ e) (hlo : (2 : ℚ) ^ e ≤ -x)
    (hhi : -x < (2 : ℚ) ^ (e + 1))
    (h1 : (n : ℚ) - 1 / 2 ≤ -x / 2 ^ (e - 23)) (h2 : -x / 2 ^ (e - 23) ≤ (n : ℚ) + 1 / 2)
    (h3 : -x / 2 ^ (e - 23) = (n : ℚ) - 1 / 2 ∨ -x / 2 ^ (e - 23) = (n : ℚ) + 1 / 2 →
      n % 2 = 0)
    (hy : y = -((n : ℚ) * 2 ^ (e - 23))) : f32 x = y := by
  have hx : x < 0 := by
    have := lt_of_lt_of_le (two_zpow_pos e) hlo
    linarith
  rw [f32_of_neg hx, f32pos_eval (-x) e n he hlo hhi h1 h2 h3, hy]

/-! ### Trail of a star -/

theorem updateStar_trail {α : Type} [LinearOrderedField α] (fl : α → α) (s : ShootingStar α)
    (d : α) :
    (updateStar fl s d).trail =
      if s.trail.length + 1 > 10 then (s.trail ++ [s.position]).tail
      else s.trail ++ [s.position] := by
  simp [updateStar]

theorem updateStar_trail_length_le {α : Type} [LinearOrderedField α] (fl : α → α)
    (s : ShootingStar α) (d : α) (h : s.trail.length ≤ 10) :
    (updateStar fl s d).trail.length ≤ 10 := by
  rw [updateStar_trail]
  split_ifs with hc
  · simp only [List.length_tail, List.length_append, List.length_singleton]
    omega
  · simp only [List.length_append, List.length_singleton]
    omega

theorem updateStarMany_trail_length_le {α : Type} [LinearOrderedField α] (fl : α → α)
    (dts : List α) (s : ShootingStar α) (h : s.trail.length ≤ 10) :
    (updateStarMany fl s dts).trail.length ≤ 10 := by
  induction dts generalizing s with
  | nil => simpa [updateStarMany] using h
  | cons d ds ih =>
    simp only [updateStarMany, List.foldl_cons]
    exact ih (updateStar fl s d) (updateStar_trail_length_le fl s d h)

/-- C2: a star whose trail has at most 10 entries keeps a trail of at most 10
entries through any number of updates with any frame times, whatever the
rounding of the float results; one update appends the position the star had
before the update and drops the first entry exactly when the appended trail
has 11 entries. -/
theorem C2_trail_length_at_most_ten {α : Type} [LinearOrderedField α] (fl : α → α)
    (s : ShootingStar α) (h : s.trail.length ≤ 10) :
    (∀ dts : List α, (updateStarMany fl s dts).trail.length ≤ 10) ∧
    (∀ d : α, (updateStar fl s d).trail =
        if (s.trail ++ [s.position]).length = 11 then (s.trail ++ [s.position]).tail
        else s.trail ++ [s.position]) := by
  refine ⟨fun dts => updateStarMany_trail_length_le fl dts s h, fun d => ?_⟩
  rw [updateStar_trail]
  have hlen : (s.trail ++ [s.position]).length = s.trail.length + 1 := by simp
  rw [hlen]
  by_cases hc : s.trail.length = 10
  · simp [hc]
  · have h1 : ¬ (s.trail.length + 1 > 10) := by omega
    have h2 : ¬ (s.trail.length + 1 = 11) := by omega
    simp [h1, h2]

/-- Witness of C2 at a fresh star, with binary32 rounding. -/
theorem C2_trail_length_at_most_ten_witness :
    (spawnStar 3 1 : ShootingStar ℚ).trail.length ≤ 10 ∧
    ((∀ dts : List ℚ, (updateStarMany f32 (spawnStar 3 1) dts).trail.length ≤ 10) ∧
     (∀ d : ℚ, (updateStar f32 (spawnStar 3 1) d).trail =
        if ((spawnStar 3 1 : ShootingStar ℚ).trail ++
              [(spawnStar 3 1 : ShootingStar ℚ).position]).length = 11
        then ((spawnStar 3 1 : ShootingStar ℚ).trail ++
              [(spawnStar 3 1 : ShootingStar ℚ).position]).tail
        else (spawnStar 3 1 : ShootingStar ℚ).trail ++
              [(spawnStar 3 1 : ShootingStar ℚ).position])) :=
  ⟨by simp [spawnStar], C2_trail_length_at_most_ten f32 (spawnStar 3 1) (by simp [spawnStar])⟩

theorem visited_length {α : Type} [LinearOrderedField α] (fl : α → α) (dts : List α)
    (s : ShootingStar α) : (visited fl s dts).length = dts.length := by
  induction dts generalizing s with
  | nil => rfl
  | cons d ds ih => simp [visited, ih]

theorem updateStarMany_trail_eq {α : Type} [LinearOrderedField α] (fl : α → α)
    (dts : List α) (s : ShootingStar α) (h : s.trail.length + dts.length ≤ 10) :
    (updateStarMany fl s dts).trail = s.trail ++ visited fl s dts := by
  induction dts generalizing s with
  | nil => simp [updateStarMany, visited]
  | cons d ds ih =>
    simp only [List.length_cons] at h
    have h1 : (updateStar fl s d).trail = s.trail ++ [s.position] := by
      rw [updateStar_trail, if_neg (by omega)]
    have h2 : (updateStar fl s d).trail.length + ds.length ≤ 10 := by
      rw [h1]
      simp only [List.length_append, List.length_singleton]
      omega
    have h3 := ih (updateStar fl s d) h2
    simp only [updateStarMany, List.foldl_cons, visited] at h3 ⊢
    rw [h3, h1]
    simp

/-! ### Life and cull -/

theorem updateStar_life {α : Type} [LinearOrderedField α] (fl : α → α) (s : ShootingStar α)
    (d : α) : (updateStar fl s d).life = fl (s.life - d) := rfl

theorem updateStarMany_snoc {α : Type} [LinearOrderedField α] (fl : α → α)
    (s : ShootingStar α) (dts : List α) (d : α) :
    updateStarMany fl s (dts ++ [d]) = updateStar fl (updateStarMany fl s dts) d := by
  simp [updateStarMany, List.foldl_append]

theorem updateStarMany_replicate_life {α : Type} [LinearOrderedField α] (fl : α → α)
    (s : ShootingStar α) (d : α) (n : Nat) :
    (updateStarMany fl s (List.replicate n d)).life = lifeAfter fl s.life d n := by
  induction n with
  | zero => simp [updateStarMany, lifeAfter]
  | succ n ih => rw [List.replicate_succ', updateStarMany_snoc, updateStar_life, ih, lifeAfter]

theorem updateAndCull_singleton_of_pos {α : Type} [LinearOrderedField α] (fl : α → α)
    (s : ShootingStar α) (d : α) (h : 0 < fl (s.life - d)) :
    updateAndCull fl [s] d = [updateStar fl s d] := by
  simp [updateAndCull, updateStar_life, h]

theorem updateAndCull_singleton_of_le {α : Type} [LinearOrderedField α] (fl : α → α)
    (s : ShootingStar α) (d : α) (h : fl (s.life - d) ≤ 0) :
    updateAndCull fl [s] d = [] := by
  simp [updateAndCull, updateStar_life, h]

theorem updateAndCullN_nil {α : Type} [LinearOrderedField α] (fl : α → α) (d : α) (n : Nat) :
    updateAndCullN fl [] d n = [] := by
  induction n with
  | zero => rfl
  | succ n ih => rw [updateAndCullN, ih]; rfl

theorem updateAndCullN_of_alive {α : Type} [LinearOrderedField α] (fl : α → α)
    (s : ShootingStar α) (d : α) (n : Nat)
    (h : ∀ k, k < n → 0 < lifeAfter fl s.life d (k + 1)) :
    updateAndCullN fl [s] d n = [updateStarMany fl s (List.replicate n d)] := by
  induction n with
  | zero => simp [updateAndCullN, updateStarMany]
  | succ n ih =>
    rw [updateAndCullN, ih (fun k hk => h k (Nat.lt_succ_of_lt hk)),
      updateAndCull_singleton_of_pos, List.replicate_succ', updateStarMany_snoc]
    rw [updateStarMany_replicate_life]
    exact h n (Nat.lt_succ_self n)

theorem updateAndCullN_of_dead {α : Type} [LinearOrderedField α] (fl : α → α)
    (s : ShootingStar α) (d : α) (n : Nat)
    (h : ∃ k, k < n ∧ lifeAfter fl s.life d (k + 1) ≤ 0) :
    updateAndCullN fl [s] d n = [] := by
  induction n with
  | zero =>
    obtain ⟨k, hk, _⟩ := h
    exact absurd hk (Nat.not_lt_zero k)
  | succ n ih =>
    rw [updateAndCullN]
    by_cases hprev : ∃ k, k < n ∧ lifeAfter fl s.life d (k + 1) ≤ 0
    · rw [ih hprev]
      rfl
    · push_neg at hprev
      rw [updateAndCullN_of_alive fl s d n hprev]
      apply updateAndCull_singleton_of_le
      rw [updateStarMany_replicate_life]
      obtain ⟨k, hk, hle⟩ := h
      rcases Nat.lt_succ_iff_lt_or_eq.mp hk with hlt | rfl
      · exact absurd hle (not_le.mpr (hprev k hlt))
      · exact hle

theorem lifeAfter_fixed (life d : ℚ) (hL : f32 life = life) (n : Nat) :
    f32 (lifeAfter f32 life d n) = lifeAfter f32 life d n := by
  cases n with
  | zero => exact hL
  | succ n => rw [lifeAfter, f32_idem]

theorem lifeAfter_succ_le (life d : ℚ) (hL : f32 life = life) (hd : 0 ≤ d) (n : Nat) :
    lifeAfter f32 life d (n + 1) ≤ lifeAfter f32 life d n := by
  have h := f32_mono (show lifeAfter f32 life d n - d ≤ lifeAfter f32 life d n by linarith)
  rwa [lifeAfter_fixed life d hL n] at h

theorem lifeAfter_antitone (life d : ℚ) (hL : f32 life = life) (hd : 0 ≤ d) {j k : Nat}
    (h : j ≤ k) : lifeAfter f32 life d k ≤ lifeAfter f32 life d j := by
  induction k with
  | zero =>
    rw [Nat.le_zero.mp h]
  | succ k ih =>
    rcases Nat.le_succ_iff.mp h with hle | rfl
    · exact le_trans (lifeAfter_succ_le life d hL hd k) (ih hle)
    · exact le_refl _

theorem lifeAfter_of_exact (life d : ℚ) (n : Nat)
    (h : ∀ k, k < n → f32 (life - ((k : ℚ) + 1) * d) = life - ((k : ℚ) + 1) * d) :
    lifeAfter f32 life d n = life - (n : ℚ) * d := by
  induction n with
  | zero => simp [lifeAfter]
  | succ n ih =>
    rw [lifeAfter, ih (fun k hk => h k (Nat.lt_succ_of_lt hk))]
    have := h n (Nat.lt_succ_self n)
    push_cast
    rw [show life - (n : ℚ) * d - d = life - ((n : ℚ) + 1) * d by ring]
    exact this

theorem onGrid_sub_nat_mul {life d : ℚ} (hL : OnGrid life) (hd : OnGrid d) (n : Nat) :
    OnGrid (life - (n : ℚ) * d) := by
  obtain ⟨a, rfl⟩ := hL
  obtain ⟨b, rfl⟩ := hd
  exact ⟨a - n * b, by push_cast; ring⟩

theorem lifeAfter_onGrid (life d : ℚ) (hL : OnGrid life) (hd : OnGrid d) (hd0 : 0 ≤ d)
    (hL2 : life ≤ 2) (n : Nat) :
    (-2 ≤ life - (n : ℚ) * d → lifeAfter f32 life d n = life - (n : ℚ) * d) ∧
    (life - (n : ℚ) * d < -2 → lifeAfter f32 life d n ≤ -2) := by
  induction n with
  | zero =>
    refine ⟨fun _ => by simp [lifeAfter], fun h => ?_⟩
    simp only [lifeAfter]
    simp only [Nat.cast_zero, zero_mul, sub_zero] at h
    exact h.le
  | succ n ih =>
    have hn : (0 : ℚ) ≤ (n : ℚ) * d := mul_nonneg (Nat.cast_nonneg n) hd0
    have hstep : life - ((n + 1 : ℕ) : ℚ) * d = life - (n : ℚ) * d - d := by
      push_cast
      ring
    constructor
    · intro h
      rw [hstep] at h
      rw [lifeAfter, ih.1 (by linarith), hstep]
      exact f32_of_onGrid ((onGrid_sub_nat_mul hL hd n).sub hd) h (by linarith)
    · intro h
      rw [hstep] at h
      rw [lifeAfter, ← f32_neg_two]
      apply f32_mono
      by_cases hc : -2 ≤ life - (n : ℚ) * d
      · rw [ih.1 hc]
        exact h.le
      · have := ih.2 (not_le.mp hc)
        linarith

theorem lifeAfter_pos_iff_of_onGrid (life d : ℚ) (hL : OnGrid life) (hd : OnGrid d)
    (hd0 : 0 ≤ d) (hL2 : life ≤ 2) (n : Nat) :
    0 < lifeAfter f32 life d n ↔ (n : ℚ) * d < life := by
  have h := lifeAfter_onGrid life d hL hd hd0 hL2 n
  by_cases hc : -2 ≤ life - (n : ℚ) * d
  · rw [h.1 hc]
    constructor <;> intro h' <;> linarith
  · have := h.2 (not_le.mp hc)
    constructor <;> intro h' <;> linarith

/-! ### Ten updates of a fresh star -/

/-- C7 (counterexample): the star spawned with `rand()` results `0, 0` has an
empty trail; after 10 frames of `1/8` each it is still in the collection,
its trail has 10 entries, and the first of them is still the position the
star had before its first update: nothing has been evicted. -/
theorem C7_oldest_not_evicted_after_ten :
    exampleStar.trail = [] ∧
    eighthFrames.length = 10 ∧
    updateAndCullN f32 [exampleStar] (1 / 8) 10 =
      [updateStarMany f32 exampleStar eighthFrames] ∧
    (updateStarMany f32 exampleStar eighthFrames).trail.length = 10 ∧
    ¬ ((updateStarMany f32 exampleStar eighthFrames).trail.head? ≠
        some exampleStar.position) := by
  have ht : (updateStarMany f32 exampleStar eighthFrames).trail =
      visited f32 exampleStar eighthFrames := by
    rw [updateStarMany_trail_eq f32 eighthFrames exampleStar (by decide)]
    rfl
  refine ⟨rfl, rfl, ?_, ?_, ?_⟩
  · apply updateAndCullN_of_alive
    intro k hk
    show 0 < lifeAfter f32 2 (1 / 8) (k + 1)
    have hg : OnGrid (1 / 8) := ⟨2 ^ 20, by norm_num⟩
    rw [lifeAfter_pos_iff_of_onGrid 2 (1 / 8) onGrid_two hg (by norm_num) (le_refl _)]
    have hk' : ((k + 1 : ℕ) : ℚ) ≤ 10 := by exact_mod_cast hk
    linarith
  · rw [ht, visited_length]
    rfl
  · rw [ht]
    simp [visited, eighthFrames, List.replicate]

/-- C7 (amended): a star with an empty trail that receives exactly 10 updates
has afterwards a trail of exactly 10 entries, namely the 10 positions it had
right before each update, oldest first, so the first entry is still the
position before the first update; the oldest entry is dropped by the next
(11th) update, after which the trail again has 10 entries. This holds for
every rounding of the float results. -/
theorem C7_ten_updates_fill_trail {α : Type} [LinearOrderedField α] (fl : α → α)
    (s : ShootingStar α) (dts : List α) (h0 : s.trail = []) (hl : dts.length = 10) :
    (updateStarMany fl s dts).trail = visited fl s dts ∧
    (updateStarMany fl s dts).trail.length = 10 ∧
    (updateStarMany fl s dts).trail.head? = some s.position ∧
    (∀ d : α, (updateStar fl (updateStarMany fl s dts) d).trail =
        (visited fl s dts).tail ++ [(updateStarMany fl s dts).position] ∧
      (updateStar fl (updateStarMany fl s dts) d).trail.length = 10) := by
  have ht : (updateStarMany fl s dts).trail = visited fl s dts := by
    rw [updateStarMany_trail_eq fl dts s (by rw [h0, hl]; simp), h0, List.nil_append]
  have hv : (visited fl s dts).length = 10 := by rw [visited_length, hl]
  have hne : visited fl s dts ≠ [] := by
    intro h
    rw [h] at hv
    simp at hv
  refine ⟨ht, by rw [ht, hv], ?_, fun d => ?_⟩
  · rw [ht]
    cases dts with
    | nil => simp at hl
    | cons d ds => simp [visited]
  · have h1 : (updateStar fl (updateStarMany fl s dts) d).trail =
        (visited fl s dts).tail ++ [(updateStarMany fl s dts).position] := by
      rw [updateStar_trail, ht, hv, if_pos (by norm_num), List.tail_append_of_ne_nil hne]
    refine ⟨h1, ?_⟩
    rw [h1]
    simp [hv]

/-- Witness of C7 (amended) at the star spawned with `rand()` results `0, 0`
and ten frames of `1/8`, with binary32 rounding. -/
theorem C7_ten_updates_fill_trail_witness :
    exampleStar.trail = [] ∧
    eighthFrames.length = 10 ∧
    (updateStarMany f32 exampleStar eighthFrames).trail = visited f32 exampleStar eighthFrames ∧
    (updateStarMany f32 exampleStar eighthFrames).trail.length = 10 ∧
    (updateStarMany f32 exampleStar eighthFrames).trail.head? = some exampleStar.position ∧
    (∀ d : ℚ, (updateStar f32 (updateStarMany f32 exampleStar eighthFrames) d).trail =
        (visited f32 exampleStar eighthFrames).tail ++
          [(updateStarMany f32 exampleStar eighthFrames).position] ∧
      (updateStar f32 (updateStarMany f32 exampleStar eighthFrames) d).trail.length = 10) :=
  ⟨rfl, rfl, C7_ten_updates_fill_trail f32 exampleStar eighthFrames rfl rfl⟩

/-! ### Removal of a star -/

theorem lifeAfter_values_of_04 :
    lifeAfter f32 2 frameTime04 1 = 13421773 / 8388608 ∧
    lifeAfter f32 2 frameTime04 2 = 5033165 / 4194304 ∧
    lifeAfter f32 2 frameTime04 3 = 6710887 / 8388608 ∧
    lifeAfter f32 2 frameTime04 4 = 13421775 / 33554432 ∧
    lifeAfter f32 2 frameTime04 5 = 1 / 16777216 ∧
    lifeAfter f32 2 frameTime04 6 = -13421771 / 33554432 := by
  have h1 : lifeAfter f32 2 frameTime04 1 = 13421773 / 8388608 := by
    rw [lifeAfter, lifeAfter, frameTime04]
    exact f32_eval _ _ 0 13421773 (by norm_num) (by norm_num) (by norm_num) (by norm_num)
      (by norm_num) (by norm_num) (by norm_num)
  have h2 : lifeAfter f32 2 frameTime04 2 = 5033165 / 4194304 := by
    rw [lifeAfter, h1, frameTime04]
    exact f32_eval _ _ 0 10066330 (by norm_num) (by norm_num) (by norm_num) (by norm_num)
      (by norm_num) (by norm_num) (by norm_num)
  have h3 : lifeAfter f32 2 frameTime04 3 = 6710887 / 8388608 := by
    rw [lifeAfter, h2, frameTime04]
    exact f32_eval _ _ (-1) 13421774 (by norm_num) (by norm_num) (by norm_num) (by norm_num)
      (by norm_num) (by norm_num) (by norm_num)
  have h4 : lifeAfter f32 2 frameTime04 4 = 13421775 / 33554432 := by
    rw [lifeAfter, h3, frameTime04]
    exact f32_eval _ _ (-2) 13421775 (by norm_num) (by norm_num) (by norm_num) (by norm_num)
      (by norm_num) (by norm_num) (by norm_num)
  have h5 : lifeAfter f32 2 frameTime04 5 = 1 / 16777216 := by
    rw [lifeAfter, h4, frameTime04]
    exact f32_eval _ _ (-24) 8388608 (by norm_num) (by norm_num) (by norm_num) (by norm_num)
      (by norm_num) (by norm_num) (by norm_num)
  have h6 : lifeAfter f32 2 frameTime04 6 = -13421771 / 33554432 := by
    rw [lifeAfter, h5, frameTime04]
    exact f32_eval_neg _ _ (-2) 13421771 (by norm_num) (by norm_num) (by norm_num) (by norm_num)
      (by norm_num) (by norm_num) (by norm_num)
  exact ⟨h1, h2, h3, h4, h5, h6⟩

theorem f32_frameTime04 : f32 frameTime04 = frameTime04 := by
  have := f32_of_dyadic 13421773 (-25) (by norm_num) (by norm_num)
  norm_num at this
  rw [frameTime04]
  exact this

/-- C3 (counterexample): the example star has life `2`; with the constant
frame time `0.4f` (a binary32 value, `5 · 0.4f ≥ 2`) the five float
subtractions leave the life `2⁻²⁴ > 0`, so after the 5th frame the star is
still in the collection although `n * d ≥ L`. -/
theorem C3_star_survives_past_its_life :
    f32 frameTime04 = frameTime04 ∧ 0 < frameTime04 ∧ exampleStar.life = 2 ∧
    ((5 : ℕ) : ℚ) * frameTime04 ≥ exampleStar.life ∧
    (updateStarMany f32 exampleStar (List.replicate 5 frameTime04)).life = 1 / 16777216 ∧
    updateAndCullN f32 [exampleStar] frameTime04 5 =
      [updateStarMany f32 exampleStar (List.replicate 5 frameTime04)] ∧
    updateAndCullN f32 [exampleStar] frameTime04 5 ≠ [] := by
  obtain ⟨h1, h2, h3, h4, h5, _⟩ := lifeAfter_values_of_04
  have hlife : exampleStar.life = 2 := rfl
  have halive : updateAndCullN f32 [exampleStar] frameTime04 5 =
      [updateStarMany f32 exampleStar (List.replicate 5 frameTime04)] := by
    apply updateAndCullN_of_alive
    intro k hk
    rw [hlife]
    interval_cases k
    · rw [h1]; norm_num
    · rw [h2]; norm_num
    · rw [h3]; norm_num
    · rw [h4]; norm_num
    · rw [h5]; norm_num
  refine ⟨f32_frameTime04, by norm_num [frameTime04], hlife, ?_, ?_, halive, ?_⟩
  · rw [hlife]
    norm_num [frameTime04]
  · rw [updateStarMany_replicate_life, hlife, h5]
  · rw [halive]
    exact List.cons_ne_nil _ _

/-- C3 (amended): a star whose life `L` is a binary32 value, updated and culled
once per frame with the same frame time `d > 0`: after the `n`-th frame
(`n ≥ 1`) it is still in the collection (as the star updated `n` times)
exactly when the life stored after `n` float subtractions of `d` is positive,
and it is gone exactly when that stored life is `≤ 0`. When the `n`
subtractions are exact the stored life is `L - n * d`; in particular, when
`L ≤ 2` and `d` are multiples of `2⁻²³`, the star is present exactly when
`n * d < L` and gone exactly when `n * d ≥ L`. -/
theorem C3_removed_exactly_when_stored_life_used_up (s : ShootingStar ℚ) (d : ℚ) (n : Nat)
    (hL : f32 s.life = s.life) (hd : 0 < d) (hn : 1 ≤ n) :
    (updateAndCullN f32 [s] d n = [updateStarMany f32 s (List.replicate n d)] ↔
      0 < lifeAfter f32 s.life d n) ∧
    (updateAndCullN f32 [s] d n = [] ↔ lifeAfter f32 s.life d n ≤ 0) ∧
    ((∀ k, k < n → f32 (s.life - ((k : ℚ) + 1) * d) = s.life - ((k : ℚ) + 1) * d) →
      lifeAfter f32 s.life d n = s.life - (n : ℚ) * d) ∧
    (OnGrid s.life → OnGrid d → s.life ≤ 2 →
      (updateAndCullN f32 [s] d n = [updateStarMany f32 s (List.replicate n d)] ↔
        (n : ℚ) * d < s.life) ∧
      (updateAndCullN f32 [s] d n = [] ↔ (n : ℚ) * d ≥ s.life)) := by
  have hpos : 0 < lifeAfter f32 s.life d n →
      updateAndCullN f32 [s] d n = [updateStarMany f32 s (List.replicate n d)] := by
    intro h
    apply updateAndCullN_of_alive
    intro k hk
    exact lt_of_lt_of_le h (lifeAfter_antitone s.life d hL hd.le (Nat.succ_le_of_lt hk))
  have hneg : lifeAfter f32 s.life d n ≤ 0 → updateAndCullN f32 [s] d n = [] := by
    intro h
    apply updateAndCullN_of_dead
    exact ⟨n - 1, by omega, by rwa [Nat.sub_add_cancel hn]⟩
  have h1 : updateAndCullN f32 [s] d n = [updateStarMany f32 s (List.replicate n d)] ↔
      0 < lifeAfter f32 s.life d n := by
    refine ⟨fun h => ?_, hpos⟩
    by_contra hc
    rw [hneg (not_lt.mp hc)] at h
    exact List.cons_ne_nil _ _ h.symm
  have h2 : updateAndCullN f32 [s] d n = [] ↔ lifeAfter f32 s.life d n ≤ 0 := by
    refine ⟨fun h => ?_, hneg⟩
    by_contra hc
    rw [hpos (not_le.mp hc)] at h
    exact List.cons_ne_nil _ _ h
  refine ⟨h1, h2, lifeAfter_of_exact s.life d n, fun hg hdg h2' => ?_⟩
  have hiff := lifeAfter_pos_iff_of_onGrid s.life d hg hdg hd.le h2' n
  refine ⟨h1.trans hiff, h2.trans ?_⟩
  rw [← not_lt, hiff, not_lt]

/-- Witness of C3 (amended): the example star (life `2`) with the constant
frame time `0.4f`: the life stored after 6 frames is negative and the star
is gone after the 6th frame. -/
theorem C3_removed_exactly_when_stored_life_used_up_witness :
    f32 exampleStar.life = exampleStar.life ∧ 0 < frameTime04 ∧ 1 ≤ 6 ∧
    lifeAfter f32 exampleStar.life frameTime04 6 = -13421771 / 33554432 ∧
    updateAndCullN f32 [exampleStar] frameTime04 6 = [] := by
  have h6 : lifeAfter f32 exampleStar.life frameTime04 6 = -13421771 / 33554432 :=
    lifeAfter_values_of_04.2.2.2.2.2
  have hL : f32 exampleStar.life = exampleStar.life := f32_two
  have hd : 0 < frameTime04 := by norm_num [frameTime04]
  refine ⟨hL, hd, by norm_num, h6, ?_⟩
  apply (C3_removed_exactly_when_stored_life_used_up exampleStar frameTime04 6 hL hd
    (by norm_num)).2.1.mpr
  rw [h6]
  norm_num

/-! ### Spawn policy -/

theorem spawnStep_eq {α : Type} [LinearOrderedField α] (fl : α → α) (p : ParticleState α)
    (f : FrameInput α) :
    spawnStep fl p f =
      if fl (p.starSpawnTimer + f.deltaTime) > 1 then
        ⟨p.stars ++ [spawnStar f.rand1 f.rand2], 0⟩
      else ⟨p.stars, fl (p.starSpawnTimer + f.deltaTime)⟩ := rfl

theorem spawnedBy_eq {α : Type} [LinearOrderedField α] (fl : α → α) (p : ParticleState α)
    (f : FrameInput α) :
    spawnedBy fl p f = if fl (p.starSpawnTimer + f.deltaTime) > 1 then 1 else 0 := by
  by_cases h : fl (p.starSpawnTimer + f.deltaTime) > 1
  · simp [spawnedBy, spawnStep_eq, if_pos h]
  · simp [spawnedBy, spawnStep_eq, if_neg h]

theorem particleFrame_timer {α : Type} [LinearOrderedField α] (fl : α → α)
    (p : ParticleState α) (f : FrameInput α) :
    (particleFrame fl p f).starSpawnTimer = (spawnStep fl p f).starSpawnTimer := rfl

theorem spawnStep_timer {α : Type} [LinearOrderedField α] (fl : α → α) (p : ParticleState α)
    (f : FrameInput α) :
    (spawnStep fl p f).starSpawnTimer =
      if fl (p.starSpawnTimer + f.deltaTime) > 1 then 0
      else fl (p.starSpawnTimer + f.deltaTime) := by
  by_cases h : fl (p.starSpawnTimer + f.deltaTime) > 1
  · simp [spawnStep_eq, if_pos h]
  · simp [spawnStep_eq, if_neg h]

theorem runParticles_cons {α : Type} [LinearOrderedField α] (fl : α → α) (p : ParticleState α)
    (f : FrameInput α) (fs : List (FrameInput α)) :
    runParticles fl p (f :: fs) = runParticles fl (particleFrame fl p f) fs := rfl

theorem runParticles_snoc {α : Type} [LinearOrderedField α] (fl : α → α) (p : ParticleState α)
    (fs : List (FrameInput α)) (f : FrameInput α) :
    runParticles fl p (fs ++ [f]) = particleFrame fl (runParticles fl p fs) f := by
  simp [runParticles, List.foldl_append]

theorem runSpawnCount_cons {α : Type} [LinearOrderedField α] (fl : α → α)
    (p : ParticleState α) (f : FrameInput α) (fs : List (FrameInput α)) :
    (runSpawnCount fl p (f :: fs)).1 =
      spawnedBy fl p f + (runSpawnCount fl (particleFrame fl p f) fs).1 :=
  rfl

theorem runSpawnCount_append {α : Type} [LinearOrderedField α] (fl : α → α)
    (fs gs : List (FrameInput α)) (p : ParticleState α) :
    (runSpawnCount fl p (fs ++ gs)).1 =
      (runSpawnCount fl p fs).1 + (runSpawnCount fl (runParticles fl p fs) gs).1 := by
  induction fs generalizing p with
  | nil => simp [runSpawnCount, runParticles]
  | cons f fs ih =>
    rw [List.cons_append, runSpawnCount_cons, runSpawnCount_cons, runParticles_cons, ih,
      Nat.add_assoc]

theorem timer_exact_of_onGrid {a d : ℚ} (ha : OnGrid a) (hd : OnGrid d) (ha0 : 0 ≤ a)
    (hd0 : 0 ≤ d) :
    (f32 (a + d) > 1 ↔ a + d > 1) ∧ (a + d ≤ 1 → f32 (a + d) = a + d) :=
  ⟨f32_gt_one_iff_of_onGrid (ha.add hd),
    fun h => f32_of_onGrid (ha.add hd) (by linarith) (by linarith)⟩

theorem no_spawn_while_sum_le_one (frames : List (FrameInput ℚ)) (p : ParticleState ℚ)
    (hgrid : ∀ f ∈ frames, OnGrid f.deltaTime ∧ 0 ≤ f.deltaTime)
    (hp : OnGrid p.starSpawnTimer) (hp0 : 0 ≤ p.starSpawnTimer)
    (hsum : p.starSpawnTimer + (frames.map FrameInput.deltaTime).sum ≤ 1) :
    (runSpawnCount f32 p frames).1 = 0 ∧
    (runParticles f32 p frames).starSpawnTimer =
      p.starSpawnTimer + (frames.map FrameInput.deltaTime).sum := by
  induction frames generalizing p with
  | nil => simp [runSpawnCount, runParticles]
  | cons f fs ih =>
    simp only [List.map_cons, List.sum_cons] at hsum ⊢
    have hf := hgrid f (List.mem_cons_self _ _)
    have hfs : (0 : ℚ) ≤ (fs.map FrameInput.deltaTime).sum := by
      apply List.sum_nonneg
      intro x hx
      obtain ⟨g, hg, rfl⟩ := List.mem_map.mp hx
      exact (hgrid g (List.mem_cons_of_mem _ hg)).2
    have hex := timer_exact_of_onGrid hp hf.1 hp0 hf.2
    have hle : p.starSpawnTimer + f.deltaTime ≤ 1 := by linarith
    have hno : ¬ (f32 (p.starSpawnTimer + f.deltaTime) > 1) := by
      rw [hex.1]
      exact not_lt.mpr hle
    have ht : (particleFrame f32 p f).starSpawnTimer = p.starSpawnTimer + f.deltaTime := by
      rw [particleFrame_timer, spawnStep_timer, if_neg hno, hex.2 hle]
    have hrec := ih (particleFrame f32 p f)
      (fun g hg => hgrid g (List.mem_cons_of_mem _ hg))
      (by rw [ht]; exact hp.add hf.1) (by rw [ht]; linarith [hf.2]) (by rw [ht]; linarith)
    constructor
    · rw [runSpawnCount_cons, spawnedBy_eq, if_neg hno, hrec.1]
    · rw [runParticles_cons, hrec.2, ht]
      ring

/-- C4 (counterexample): with `lastTime = 1/2 - 2⁻²⁴` and clock samples `1`
and `3/2` the two frame times are `1/2 + 2⁻²⁴` and `1/2`. In the second frame
the accumulator `a = 1/2 + 2⁻²⁴` and `d = 1/2` have `a + d > 1`, yet the float
sum is `1`: no star is spawned and the accumulator becomes `1`, not `a + d`.
The running sum of the frame times exceeds `1` in that frame and the run
spawns nothing. -/
theorem C4_rounded_timer_misses_crossing :
    deltaTimes f32 (f32 clockStart) clockSamples = clockFrames.map FrameInput.deltaTime ∧
    clockFrames.map FrameInput.deltaTime = [1 / 2 + 1 / 2 ^ 24, 1 / 2] ∧
    (1 / 2 + 1 / 2 ^ 24 : ℚ) + 1 / 2 > 1 ∧
    spawnedBy f32 ⟨[], 1 / 2 + 1 / 2 ^ 24⟩ ⟨1 / 2, 8, 0⟩ = 0 ∧
    (spawnStep f32 ⟨[], 1 / 2 + 1 / 2 ^ 24⟩ ⟨1 / 2, 8, 0⟩).starSpawnTimer = 1 ∧
    (1 : ℚ) ≠ (1 / 2 + 1 / 2 ^ 24) + 1 / 2 ∧
    (clockFrames.map FrameInput.deltaTime).sum > 1 ∧
    (runSpawnCount f32 initialParticles clockFrames).1 = 0 ∧
    (runParticles f32 initialParticles clockFrames).stars = [] := by
  have e0 : f32 clockStart = 1 / 2 - 1 / 2 ^ 24 := by
    have := f32_of_dyadic 8388607 (-24) (by norm_num) (by norm_num)
    norm_num at this
    norm_num [clockStart]
    exact this
  have e1 : f32 (1 / 2 + 1 / 2 ^ 24) = 1 / 2 + 1 / 2 ^ 24 := by
    have := f32_of_dyadic 8388609 (-24) (by norm_num) (by norm_num)
    norm_num at this
    norm_num
    exact this
  have e2 : f32 (3 / 2) = 3 / 2 := by
    have := f32_of_dyadic 3 (-1) (by norm_num) (by norm_num)
    norm_num at this
    exact this
  have e3 : f32 (1 / 2) = 1 / 2 := by
    have := f32_of_dyadic 1 (-1) (by norm_num) (by norm_num)
    norm_num at this
    norm_num
    exact this
  have e4 : f32 (1 / 2 + 1 / 2 ^ 24 + 1 / 2) = 1 :=
    f32_eval _ _ 0 8388608 (by norm_num) (by norm_num) (by norm_num) (by norm_num)
      (by norm_num) (by norm_num) (by norm_num)
  have hstep1 : f32 (0 + (1 / 2 + 1 / 2 ^ 24)) = 1 / 2 + 1 / 2 ^ 24 := by
    rw [zero_add, e1]
  have hno1 : ¬ (f32 ((initialParticles : ParticleState ℚ).starSpawnTimer +
      (⟨1 / 2 + 1 / 2 ^ 24, 5, 1⟩ : FrameInput ℚ).deltaTime) > 1) := by
    show ¬ (f32 (0 + (1 / 2 + 1 / 2 ^ 24)) > 1)
    rw [hstep1]
    norm_num
  have hno2 : ¬ (f32 (1 / 2 + 1 / 2 ^ 24 + 1 / 2) > 1) := by
    rw [e4]
    norm_num
  have hf1 : particleFrame f32 initialParticles ⟨1 / 2 + 1 / 2 ^ 24, 5, 1⟩ =
      ⟨[], 1 / 2 + 1 / 2 ^ 24⟩ := by
    rw [particleFrame, spawnStep_eq, if_neg hno1]
    show (⟨updateAndCull f32 [] _, f32 (0 + (1 / 2 + 1 / 2 ^ 24))⟩ : ParticleState ℚ) = _
    rw [hstep1]
    rfl
  have hs2 : spawnStep f32 ⟨[], 1 / 2 + 1 / 2 ^ 24⟩ ⟨1 / 2, 8, 0⟩ = ⟨[], 1⟩ := by
    rw [spawnStep_eq]
    show (if f32 (1 / 2 + 1 / 2 ^ 24 + 1 / 2) > 1 then _ else _) = _
    rw [if_neg hno2, e4]
  have hsp2 : spawnedBy f32 ⟨[], 1 / 2 + 1 / 2 ^ 24⟩ ⟨1 / 2, 8, 0⟩ = 0 := by
    rw [spawnedBy_eq]
    exact if_neg hno2
  have hf2 : particleFrame f32 ⟨[], 1 / 2 + 1 / 2 ^ 24⟩ ⟨1 / 2, 8, 0⟩ = ⟨[], 1⟩ := by
    rw [particleFrame, hs2]
    rfl
  refine ⟨?_, rfl, by norm_num, hsp2, by rw [hs2], by norm_num, by norm_num [clockFrames],
    ?_, ?_⟩
  · simp only [deltaTimes, clockSamples, clockFrames, List.map_cons, List.map_nil, e0, f32_one,
      e2]
    rw [show (1 : ℚ) - (1 / 2 - 1 / 2 ^ 24) = 1 / 2 + 1 / 2 ^ 24 by norm_num, e1,
      show (3 / 2 : ℚ) - 1 = 1 / 2 by norm_num, e3]
  · show (runSpawnCount f32 initialParticles
      [⟨1 / 2 + 1 / 2 ^ 24, 5, 1⟩, ⟨1 / 2, 8, 0⟩]).1 = 0
    rw [runSpawnCount_cons, runSpawnCount_cons, hf1, hsp2, spawnedBy_eq, if_neg hno1]
    rfl
  · show (runParticles f32 initialParticles
      [⟨1 / 2 + 1 / 2 ^ 24, 5, 1⟩, ⟨1 / 2, 8, 0⟩]).stars = []
    rw [runParticles_cons, runParticles_cons, hf1, hf2]
    rfl

/-- C4 (amended): the spawn step forms the float sum `t = f32 (a + d)` of the
accumulator and the frame time; it spawns exactly one star and sets the
accumulator to `0` when `t > 1`, and otherwise spawns no star and sets the
accumulator to `t`. `t > 1` implies `a + d > 1`; when `a ≥ 0` and `d ≥ 0` are
multiples of `2⁻²³` the two are equivalent and `t = a + d` as long as
`a + d ≤ 1`. For frames whose times are non-negative multiples of `2⁻²³`,
starting from accumulator `0`: while the frame times sum to at most `1` no
star is spawned; when the next frame takes the sum above `1`, that frame
spawns exactly one star, the whole run has spawned exactly one, and the
accumulator afterwards is `0 < 1`. -/
theorem C4_spawn_cadence_rounded :
    (∀ (p : ParticleState ℚ) (f : FrameInput ℚ),
      (f32 (p.starSpawnTimer + f.deltaTime) > 1 →
        spawnStep f32 p f = ⟨p.stars ++ [spawnStar f.rand1 f.rand2], 0⟩ ∧
        spawnedBy f32 p f = 1 ∧
        (particleFrame f32 p f).starSpawnTimer = 0 ∧
        (particleFrame f32 p f).starSpawnTimer < 1 ∧
        p.starSpawnTimer + f.deltaTime > 1) ∧
      (¬ (f32 (p.starSpawnTimer + f.deltaTime) > 1) →
        spawnStep f32 p f = ⟨p.stars, f32 (p.starSpawnTimer + f.deltaTime)⟩ ∧
        spawnedBy f32 p f = 0 ∧
        (particleFrame f32 p f).starSpawnTimer = f32 (p.starSpawnTimer + f.deltaTime))) ∧
    (∀ a d : ℚ, OnGrid a → OnGrid d → 0 ≤ a → 0 ≤ d →
      (f32 (a + d) > 1 ↔ a + d > 1) ∧ (a + d ≤ 1 → f32 (a + d) = a + d)) ∧
    (∀ (stars : List (ShootingStar ℚ)) (frames : List (FrameInput ℚ)),
      (∀ f ∈ frames, OnGrid f.deltaTime ∧ 0 ≤ f.deltaTime) →
      (frames.map FrameInput.deltaTime).sum ≤ 1 →
        (runSpawnCount f32 ⟨stars, 0⟩ frames).1 = 0 ∧
        (runParticles f32 ⟨stars, 0⟩ frames).starSpawnTimer =
          (frames.map FrameInput.deltaTime).sum) ∧
    (∀ (stars : List (ShootingStar ℚ)) (frames : List (FrameInput ℚ)) (f : FrameInput ℚ),
      (∀ g ∈ frames, OnGrid g.deltaTime ∧ 0 ≤ g.deltaTime) → OnGrid f.deltaTime →
      (frames.map FrameInput.deltaTime).sum ≤ 1 →
      (frames.map FrameInput.deltaTime).sum + f.deltaTime > 1 →
        spawnedBy f32 (runParticles f32 ⟨stars, 0⟩ frames) f = 1 ∧
        (runSpawnCount f32 ⟨stars, 0⟩ (frames ++ [f])).1 = 1 ∧
        (runParticles f32 ⟨stars, 0⟩ (frames ++ [f])).starSpawnTimer = 0 ∧
        (runParticles f32 ⟨stars, 0⟩ (frames ++ [f])).starSpawnTimer < 1) := by
  refine ⟨fun p f => ⟨fun h => ?_, fun h => ?_⟩,
    fun a d ha hd ha0 hd0 => timer_exact_of_onGrid ha hd ha0 hd0,
    fun stars frames hgrid hsum => ?_, fun stars frames f hgrid hf hsum hcross => ?_⟩
  · refine ⟨by rw [spawnStep_eq, if_pos h], by rw [spawnedBy_eq, if_pos h], ?_, ?_,
      f32_gt_one_imp h⟩
    · rw [particleFrame_timer, spawnStep_timer, if_pos h]
    · rw [particleFrame_timer, spawnStep_timer, if_pos h]
      exact zero_lt_one
  · refine ⟨by rw [spawnStep_eq, if_neg h], by rw [spawnedBy_eq, if_neg h], ?_⟩
    rw [particleFrame_timer, spawnStep_timer, if_neg h]
  · have := no_spawn_while_sum_le_one frames ⟨stars, 0⟩ hgrid onGrid_zero le_rfl
      (by simpa using hsum)
    simpa using this
  · have h0 := no_spawn_while_sum_le_one frames ⟨stars, 0⟩ hgrid onGrid_zero le_rfl
      (by simpa using hsum)
    simp only [zero_add] at h0
    have hsum0 : (0 : ℚ) ≤ (frames.map FrameInput.deltaTime).sum := by
      apply List.sum_nonneg
      intro x hx
      obtain ⟨g, hg, rfl⟩ := List.mem_map.mp hx
      exact (hgrid g hg).2
    have hgridsum : OnGrid (runParticles f32 ⟨stars, 0⟩ frames).starSpawnTimer := by
      rw [h0.2]
      clear h0 hsum hcross hsum0
      induction frames with
      | nil => exact onGrid_zero
      | cons g gs ih =>
        rw [List.map_cons, List.sum_cons]
        exact (hgrid g (List.mem_cons_self _ _)).1.add
          (ih (fun x hx => hgrid x (List.mem_cons_of_mem _ hx)))
    have hgt : f32 ((runParticles f32 ⟨stars, 0⟩ frames).starSpawnTimer + f.deltaTime) > 1 := by
      apply (f32_gt_one_iff_of_onGrid (hgridsum.add hf)).mpr
      rw [h0.2]
      exact hcross
    have hs : spawnedBy f32 (runParticles f32 ⟨stars, 0⟩ frames) f = 1 := by
      rw [spawnedBy_eq, if_pos hgt]
    have ht : (runParticles f32 ⟨stars, 0⟩ (frames ++ [f])).starSpawnTimer = 0 := by
      rw [runParticles_snoc, particleFrame_timer, spawnStep_timer, if_pos hgt]
    refine ⟨hs, ?_, ht, ?_⟩
    · rw [runSpawnCount_append, h0.1]
      simp [runSpawnCount, hs]
    · rw [ht]
      exact zero_lt_one

/-- Witness of C4 (amended): after the two frames of `shortFrames` (sum `7/8`)
no star has been spawned; the frame `crossingFrame` then spawns exactly
one. -/
theorem C4_spawn_cadence_rounded_witness :
    ((∀ f ∈ shortFrames, OnGrid f.deltaTime ∧ 0 ≤ f.deltaTime) ∧
      (shortFrames.map FrameInput.deltaTime).sum ≤ 1 ∧
      (runSpawnCount f32 ⟨[], 0⟩ shortFrames).1 = 0 ∧
      (runParticles f32 ⟨[], 0⟩ shortFrames).starSpawnTimer =
        (shortFrames.map FrameInput.deltaTime).sum) ∧
    (OnGrid crossingFrame.deltaTime ∧
      (shortFrames.map FrameInput.deltaTime).sum + crossingFrame.deltaTime > 1 ∧
      spawnedBy f32 (runParticles f32 ⟨[], 0⟩ shortFrames) crossingFrame = 1 ∧
      (runSpawnCount f32 ⟨[], 0⟩ (shortFrames ++ [crossingFrame])).1 = 1 ∧
      (runParticles f32 ⟨[], 0⟩ (shortFrames ++ [crossingFrame])).starSpawnTimer = 0 ∧
      (runParticles f32 ⟨[], 0⟩ (shortFrames ++ [crossingFrame])).starSpawnTimer < 1) := by
  have hgrid : ∀ f ∈ shortFrames, OnGrid f.deltaTime ∧ 0 ≤ f.deltaTime := by
    intro f hf
    simp only [shortFrames, List.mem_cons, List.mem_singleton, List.not_mem_nil, or_false] at hf
    rcases hf with rfl | rfl
    · exact ⟨⟨3 * 2 ^ 20, by norm_num⟩, by norm_num⟩
    · exact ⟨⟨2 ^ 22, by norm_num⟩, by norm_num⟩
  have hc : OnGrid crossingFrame.deltaTime := ⟨2 ^ 21, by norm_num [crossingFrame]⟩
  have hsum : (shortFrames.map FrameInput.deltaTime).sum ≤ 1 := by
    norm_num [shortFrames]
  have hcross : (shortFrames.map FrameInput.deltaTime).sum + crossingFrame.deltaTime > 1 := by
    norm_num [shortFrames, crossingFrame]
  exact ⟨⟨hgrid, hsum, C4_spawn_cadence_rounded.2.2.1 [] shortFrames hgrid hsum⟩,
    ⟨hc, hcross,
      C4_spawn_cadence_rounded.2.2.2 [] shortFrames crossingFrame hgrid hc hsum hcross⟩⟩

/-! ### Drawing a star -/

theorem normalize_unitY : normalize (⟨0, 1, 0⟩ : Vec3 ℝ) = some ⟨0, 1, 0⟩ := by
  simp [normalize, Vec3.dot, Vec3.smul]

theorem rotate_zero_unitY (m : Mat4 ℝ) : rotate m 0 ⟨0, 1, 0⟩ = some m := by
  rw [rotate, normalize_unitY]
  simp [Mat4.rotateWith, Vec4.add, Vec4.smul]

/-- C6: at elapsed time `t = 0` both rotations about the Y axis (angles
`t * radians 30` and `t * radians 100`) leave their matrix unchanged, so the
sun matrix is the uniform scale by `1.5`, the earth matrix is the translation
by `(2.3, 0, 0)` and the moon matrix is the translation by `(2.3, 0, 0)`
followed by the translation by `(1, 0, 0)` and the uniform scale by `0.6`,
that is the scale `0.6` with translation column `(3.3, 0, 0, 1)`. -/
theorem C6_rest_pose_at_time_zero :
    (sunModel : Mat4 ℝ) = ⟨⟨3 / 2, 0, 0, 0⟩, ⟨0, 3 / 2, 0, 0⟩, ⟨0, 0, 3 / 2, 0⟩, ⟨0, 0, 0, 1⟩⟩ ∧
    (∀ m : Mat4 ℝ, rotate m (0 * radians 30) ⟨0, 1, 0⟩ = some m) ∧
    (∀ m : Mat4 ℝ, rotate m (0 * radians 100) ⟨0, 1, 0⟩ = some m) ∧
    earthModel 0 = some (Mat4.translate Mat4.identity ⟨23 / 10, 0, 0⟩) ∧
    earthModel 0 = some ⟨⟨1, 0, 0, 0⟩, ⟨0, 1, 0, 0⟩, ⟨0, 0, 1, 0⟩, ⟨23 / 10, 0, 0, 1⟩⟩ ∧
    moonModel 0 = some (Mat4.scale (Mat4.translate
      (Mat4.translate Mat4.identity ⟨23 / 10, 0, 0⟩) ⟨1, 0, 0⟩) (vec3Splat (6 / 10))) ∧
    moonModel 0 =
      some ⟨⟨6 / 10, 0, 0, 0⟩, ⟨0, 6 / 10, 0, 0⟩, ⟨0, 0, 6 / 10, 0⟩, ⟨33 / 10, 0, 0, 1⟩⟩ := by
  have he : earthModel 0 = some (Mat4.translate Mat4.identity ⟨23 / 10, 0, 0⟩) := by
    simp only [earthModel, zero_mul, rotate_zero_unitY, Option.some_bind]
  have hm : moonModel 0 = some (Mat4.scale (Mat4.translate
      (Mat4.translate Mat4.identity ⟨23 / 10, 0, 0⟩) ⟨1, 0, 0⟩) (vec3Splat (6 / 10))) := by
    simp only [moonModel, zero_mul, rotate_zero_unitY, Option.some_bind, Option.map_some']
  refine ⟨?_, fun m => ?_, fun m => ?_, he, ?_, hm, ?_⟩
  · simp [sunModel, Mat4.scale, Mat4.identity, vec3Splat, Vec4.smul]
  · rw [zero_mul, rotate_zero_unitY]
  · rw [zero_mul, rotate_zero_unitY]
  · rw [he]
    simp [Mat4.translate, Mat4.identity, Vec4.add, Vec4.smul]
  · rw [hm]
    simp [Mat4.translate, Mat4.scale, Mat4.identity, vec3Splat, Vec4.add, Vec4.smul]
    norm_num

/-! ### Camera basis -/

theorem normalize_eq_none_of_zero (v : Vec3 ℝ) (h : v = ⟨0, 0, 0⟩) : normalize v = none := by
  subst h
  simp [normalize, Vec3.dot]

theorem cross_camUp (d : Vec3 ℝ) : d.cross camUp = ⟨-d.z, 0, d.x⟩ := by
  simp [Vec3.cross, camUp]

theorem radians_ninety : radians 90 = Real.pi / 2 := by
  unfold radians
  ring

theorem cos_radians_pos (pitch : ℝ) (h1 : -25 ≤ pitch) (h2 : pitch ≤ 25) :
    0 < Real.cos (radians pitch) := by
  apply Real.cos_pos_of_mem_Ioo
  have hpi := Real.pi_pos
  unfold radians
  constructor <;> nlinarith

theorem normalize_of_length (v : Vec3 ℝ) (k : ℝ) (hk : 0 < k) (h : v.dot v = k ^ 2) :
    normalize v = some (v.smul (1 / k)) := by
  have hne : v.dot v ≠ 0 := by
    rw [h]
    positivity
  rw [normalize, if_neg hne, h, Real.sqrt_sq hk.le]

theorem direction_cross_camUp (yaw pitch : ℝ) :
    (direction yaw pitch).cross camUp =
      ⟨Real.cos (radians pitch) * Real.sin (radians yaw), 0,
        Real.cos (radians pitch) * Real.cos (radians yaw)⟩ := by
  rw [cross_camUp]
  simp [direction]

theorem direction_cross_dot (yaw pitch : ℝ) :
    ((direction yaw pitch).cross camUp).dot ((direction yaw pitch).cross camUp) =
      Real.cos (radians pitch) ^ 2 := by
  rw [direction_cross_camUp]
  simp only [Vec3.dot]
  have := Real.sin_sq_add_cos_sq (radians yaw)
  linear_combination Real.cos (radians pitch) ^ 2 * this

theorem right_of_direction (yaw pitch : ℝ) (h1 : -25 ≤ pitch) (h2 : pitch ≤ 25) :
    normalize ((direction yaw pitch).cross camUp) =
      some ⟨Real.sin (radians yaw), 0, Real.cos (radians yaw)⟩ := by
  have hc := cos_radians_pos pitch h1 h2
  rw [normalize_of_length _ _ hc (direction_cross_dot yaw pitch), direction_cross_camUp]
  simp only [Vec3.smul, Option.some.injEq, Vec3.mk.injEq]
  refine ⟨?_, by simp, ?_⟩ <;> field_simp

theorem right_cross_direction (yaw pitch : ℝ) :
    (⟨Real.sin (radians yaw), 0, Real.cos (radians yaw)⟩ : Vec3 ℝ).cross (direction yaw pitch) =
      ⟨-(Real.sin (radians pitch) * Real.cos (radians yaw)), Real.cos (radians pitch),
        Real.sin (radians pitch) * Real.sin (radians yaw)⟩ := by
  have := Real.sin_sq_add_cos_sq (radians yaw)
  simp only [Vec3.cross, direction, Vec3.mk.injEq]
  refine ⟨by ring, ?_, by ring⟩
  linear_combination Real.cos (radians pitch) * this

theorem right_cross_direction_dot (yaw pitch : ℝ) :
    ((⟨Real.sin (radians yaw), 0, Real.cos (radians yaw)⟩ : Vec3 ℝ).cross
        (direction yaw pitch)).dot
      ((⟨Real.sin (radians yaw), 0, Real.cos (radians yaw)⟩ : Vec3 ℝ).cross
        (direction yaw pitch)) = 1 := by
  rw [right_cross_direction]
  simp only [Vec3.dot]
  have hy := Real.sin_sq_add_cos_sq (radians yaw)
  have hp := Real.sin_sq_add_cos_sq (radians pitch)
  linear_combination Real.sin (radians pitch) ^ 2 * hy + hp

theorem up_of_direction (yaw pitch : ℝ) :
    normalize ((⟨Real.sin (radians yaw), 0, Real.cos (radians yaw)⟩ : Vec3 ℝ).cross
        (direction yaw pitch)) =
      some ⟨-(Real.sin (radians pitch) * Real.cos (radians yaw)), Real.cos (radians pitch),
        Real.sin (radians pitch) * Real.sin (radians yaw)⟩ := by
  rw [normalize_of_length _ 1 one_pos (by rw [right_cross_direction_dot]; norm_num),
    right_cross_direction]
  simp [Vec3.smul]

/-- C9: for every yaw and every pitch with `-25 ≤ pitch ≤ 25` (degrees), the
cross product of the look direction with `camUp` is
`(cos p sin y, 0, cos p cos y)`, its length is `cos p > 0`, so `right` is
defined (and equals `(sin y, 0, cos y)`); `right × direction` has length `1`,
so `up` is defined as well: the camera basis of the frame is well defined. -/
theorem C9_basis_defined_for_clamped_pitch (yaw pitch : ℝ)
    (h1 : -25 ≤ pitch) (h2 : pitch ≤ 25) :
    (direction yaw pitch).cross camUp =
      ⟨Real.cos (radians pitch) * Real.sin (radians yaw), 0,
        Real.cos (radians pitch) * Real.cos (radians yaw)⟩ ∧
    length ((direction yaw pitch).cross camUp) = Real.cos (radians pitch) ∧
    0 < Real.cos (radians pitch) ∧
    (direction yaw pitch).cross camUp ≠ ⟨0, 0, 0⟩ ∧
    normalize ((direction yaw pitch).cross camUp) =
      some ⟨Real.sin (radians yaw), 0, Real.cos (radians yaw)⟩ ∧
    length ((⟨Real.sin (radians yaw), 0, Real.cos (radians yaw)⟩ : Vec3 ℝ).cross
      (direction yaw pitch)) = 1 ∧
    cameraBasis (direction yaw pitch) =
      some (⟨Real.sin (radians yaw), 0, Real.cos (radians yaw)⟩,
        ⟨-(Real.sin (radians pitch) * Real.cos (radians yaw)), Real.cos (radians pitch),
          Real.sin (radians pitch) * Real.sin (radians yaw)⟩) := by
  have hc := cos_radians_pos pitch h1 h2
  have hr := right_of_direction yaw pitch h1 h2
  refine ⟨direction_cross_camUp yaw pitch, ?_, hc, ?_, hr, ?_, ?_⟩
  · rw [length, direction_cross_dot, Real.sqrt_sq hc.le]
  · intro h0
    rw [normalize_eq_none_of_zero _ h0] at hr
    exact Option.noConfusion hr
  · rw [length, right_cross_direction_dot, Real.sqrt_one]
  · rw [cameraBasis, hr, Option.some_bind, up_of_direction]
    rfl

/-- Witness of C9 at the initial camera angles, yaw `90` and pitch `0`. -/
theorem C9_basis_defined_for_clamped_pitch_witness :
    (-25 : ℝ) ≤ 0 ∧ (0 : ℝ) ≤ 25 ∧
    cameraBasis (direction 90 0) = some (⟨1, 0, 0⟩, ⟨0, 1, 0⟩) := by
  refine ⟨by norm_num, by norm_num, ?_⟩
  have h := (C9_basis_defined_for_clamped_pitch 90 0 (by norm_num) (by norm_num)).2.2.2.2.2.2
  rw [h, radians_ninety]
  simp [radians]

/-! ### Size of the collection -/

end SolarSystem
